import Mathlib

set_option linter.unusedVariables false

/-!
Shallow embedding of the STARK proof system from the repository's Cairo
sources (the canonical draft `codev2`, plus the comparison helpers of the
`lib.cairo` draft).  Cairo `felt252` values are elements of `ZMod P` for the
felt252 prime `P`; `u32`/`usize` loop counters, lengths and indices are
`Nat` (all values reached by the embedded code are far below `2^32`, where
Cairo's checked arithmetic never overflows).  Fallible code — Cairo
`assert`s, panicking `Array::at` reads and checked integer conversions —
returns `Option`.  The Poseidon hash is the system's pluggable
collision-resistant compression primitive; every definition is parametrised
by it as `hash : List F → F`.
-/

namespace Stark

/-- The felt252 prime: 2^251 + 17 * 2^192 + 1. -/
def P : Nat := 0x800000000000011000000000000000000000000000000000000000000000001

abbrev F := ZMod P

instance : NeZero P := ⟨by norm_num [P]⟩

instance : Inhabited F := ⟨0⟩

/-- Externally supplied configuration (§6 of the spec): blow-up factor,
FRI round budget and query count.  The canonical draft fixes them to
16, 8 and 32 respectively. -/
structure Config where
  blow_up_factor : Nat
  fri_rounds : Nat
  num_queries : Nat

/-- The constants of the canonical draft (`BLOW_UP_FACTOR = 16`,
`FRI_ROUNDS = 8`, `NUM_QUERIES = 32`). -/
def defaultConfig : Config := ⟨16, 8, 32⟩

def GENERATOR : F := 3

def FIAT_SHAMIR_DOMAIN_SEPARATOR : F := 0x46696174536861

structure EvaluationDomain where
  size : Nat
  generator : F
  offset : F
deriving DecidableEq

instance : Inhabited EvaluationDomain := ⟨⟨0, 0, 0⟩⟩

structure MerkleTree where
  root : F
  height : Nat
  nodes : List (List F)
deriving DecidableEq

instance : Inhabited MerkleTree := ⟨⟨0, 0, []⟩⟩

structure MerkleProof where
  leaf_index : Nat
  leaf_value : F
  authentication_path : List F
deriving DecidableEq

structure FRIQuery where
  layer_index : Nat
  position : Nat
  value : F
  sibling_value : F
  merkle_proof : MerkleProof
deriving DecidableEq

structure FRIQueryPhase where
  queries : List FRIQuery
  challenge : F
deriving DecidableEq

structure FRICommitment where
  layer_trees : List MerkleTree
  layer_evaluations : List (List F)
  final_polynomial : List F
  query_phase : FRIQueryPhase
  domains : List EvaluationDomain
deriving DecidableEq

structure AIRConstraints where
  boundary_constraints : List F
  transition_constraints : List F
  permutation_constraints : List F
  constraint_degree : Nat
deriving DecidableEq

structure ProofTranscript where
  elements : List F
  domain_separators : List F
  round_counter : Nat
deriving DecidableEq

structure STARKProof where
  trace_commitment : MerkleTree
  trace_evaluations : List F
  fri_proof : FRICommitment
  low_degree_proof : List F
  public_coin_seed : F
  transcript : ProofTranscript
deriving DecidableEq

structure TraceTable where
  rows : List (List F)
  width : Nat
  length : Nat
  domain : EvaluationDomain
deriving DecidableEq

structure PublicInput where
  message_hash : F
  public_key : F
  signature : F
deriving DecidableEq

/-- Cairo `u256::try_into::<u32>`: succeeds exactly below `2^32`. -/
def u256_to_u32 (x : Nat) : Option Nat :=
  if x < 4294967296 then some x else none

/-- Cairo `felt252.try_into().unwrap_or(0)` into `u32`. -/
def felt_to_u32 (x : F) : Nat :=
  if x.val < 4294967296 then x.val else 0

/-- Source `is_power_of_two`: repeated halving until 1, failing on an odd
intermediate value.  The loop is given as structural recursion on a fuel
bound; the genuine exit conditions are checked first and the fuel (always
initialised to an upper bound on the iteration count) never runs out. -/
def is_power_of_two_loop : Nat → Nat → Bool
  | 0, _ => false
  | fuel + 1, t =>
      if t = 1 then true
      else if t % 2 ≠ 0 then false
      else is_power_of_two_loop fuel (t / 2)

def is_power_of_two (n : Nat) : Bool :=
  if n = 0 then false else is_power_of_two_loop n n

/-- Source `field_pow` loop by repeated squaring (structural fuel
recursion; the fuel is an upper bound on the iteration count and the
genuine exit condition is checked first). -/
def field_pow_loop : Nat → F → F → Nat → F
  | 0, result, _, _ => result
  | fuel + 1, result, base_power, remaining =>
      if remaining = 0 then result
      else
        field_pow_loop fuel (if remaining % 2 = 1 then result * base_power else result)
          (base_power * base_power) (remaining / 2)

def field_pow (base : F) (exp : Nat) : F :=
  if exp = 0 then 1 else field_pow_loop exp 1 base exp

/-- Source `find_primitive_root_of_unity`: square the generator until the
tracked order reaches `size` (structural fuel recursion; the order doubles
each step, so `size` steps of fuel are always enough). -/
def find_root_loop (size : Nat) : Nat → F → Nat → F
  | 0, generator, _ => generator
  | fuel + 1, generator, current_order =>
      if current_order ≥ size then generator
      else find_root_loop size fuel (generator * generator) (current_order * 2)

def find_primitive_root_of_unity (size : Nat) : F :=
  find_root_loop size size GENERATOR 1

/-- Source `create_evaluation_domain`; the power-of-two assert is modelled
as `none`. -/
def create_evaluation_domain (size : Nat) (offset : F) : Option EvaluationDomain :=
  if is_power_of_two size then
    some ⟨size, find_primitive_root_of_unity size, offset⟩
  else none

section Hash

variable (hash : List F → F)

def hash_pair (left right : F) : F := hash [left, right]

def hash_array (data : List F) : F := hash data

/-! Fiat-Shamir transcript. -/

def init_transcript (public_input : PublicInput) : ProofTranscript :=
  { elements := [FIAT_SHAMIR_DOMAIN_SEPARATOR, public_input.message_hash,
                 public_input.public_key, public_input.signature],
    domain_separators := [1, 2, 2, 2],
    round_counter := 0 }

def append_to_transcript (t : ProofTranscript) (value separator : F) : ProofTranscript :=
  { t with elements := t.elements ++ [value],
           domain_separators := t.domain_separators ++ [separator] }

def append_commitment_to_transcript (t : ProofTranscript) (commitment : MerkleTree) :
    ProofTranscript :=
  let t1 := append_to_transcript t commitment.root 3
  { t1 with round_counter := t1.round_counter + 1 }

def get_challenge_from_transcript (t : ProofTranscript) : F × ProofTranscript :=
  let challenge_data : List F :=
    ((t.round_counter : F)) :: (((t.elements.length + t.round_counter : Nat) : F))
      :: t.elements
  let challenge := hash challenge_data
  (challenge, append_to_transcript t challenge 4)

/-- Source mapping of a challenge to a point index in `[0, domain_size)`,
including the (dead) fallback mixing branch. -/
def point_index_of (challenge : F) (domain_size : Nat) (fallback_index : Nat) : Nat :=
  let challenge_u256 := challenge.val
  let point_index_u256 :=
    if 0 < domain_size then challenge_u256 % domain_size else 0
  match u256_to_u32 point_index_u256 with
  | some v => v
  | none =>
      let mixed := (challenge_u256 / 17 + challenge_u256 * 13) % domain_size
      (u256_to_u32 mixed).getD (fallback_index % domain_size)

def gen_points_loop (domain_size : Nat) :
    Nat → Nat → List F → ProofTranscript → List F × ProofTranscript
  | 0, _, acc, t => (acc, t)
  | n + 1, i, acc, t =>
      let t1 := append_to_transcript t (i : F) 7
      let ct := get_challenge_from_transcript hash t1
      let p := point_index_of ct.1 domain_size i
      gen_points_loop domain_size n (i + 1) (acc ++ [((p : Nat) : F)]) ct.2

def generate_secure_random_points (t : ProofTranscript) (domain_size count : Nat) :
    List F × ProofTranscript :=
  let t1 := append_to_transcript t (domain_size : F) 5
  let t2 := append_to_transcript t1 (count : F) 6
  gen_points_loop hash domain_size count 0 [] t2

def generate_fri_challenge_secure (t : ProofTranscript) (round : Nat) :
    F × ProofTranscript :=
  get_challenge_from_transcript hash (append_to_transcript t (round : F) 8)

/-! Merkle tree. -/

/-- One bottom-up level: hash adjacent pairs, duplicating a lone element. -/
def next_level : List F → List F
  | [] => []
  | [x] => [hash_pair hash x x]
  | a :: b :: rest => hash_pair hash a b :: next_level rest

theorem next_level_length : ∀ l : List F, (next_level hash l).length = (l.length + 1) / 2
  | [] => rfl
  | [x] => by simp [next_level]
  | _ :: _ :: rest => by
      simp only [next_level, List.length_cons, next_level_length rest]
      omega

/-- Level-by-level construction, leaves first (structural fuel recursion;
each level halves in size, so fuel `l.length` is always enough). -/
def build_levels_loop : Nat → List F → List (List F)
  | 0, l => [l]
  | fuel + 1, l =>
      if l.length ≤ 1 then [l]
      else l :: build_levels_loop fuel (next_level hash l)

/-- Level-by-level node storage, leaves first. -/
def build_levels (l : List F) : List (List F) :=
  build_levels_loop hash l.length l

/-- Fuel irrelevance for `build_levels_loop`: any fuel at least the number
of further levels (bounded by the current length) gives the same result. -/
theorem build_levels_loop_eq_of_le (l : List F) (fuel fuel' : Nat)
    (h : l.length ≤ fuel) (h' : l.length ≤ fuel') :
    build_levels_loop hash fuel l = build_levels_loop hash fuel' l := by
  induction fuel using Nat.strong_induction_on generalizing l fuel' with
  | _ fuel ih =>
    match fuel, fuel' with
    | 0, 0 => rfl
    | 0, fuel' + 1 =>
        have hl : l.length = 0 := by omega
        simp [build_levels_loop, hl]
    | fuel + 1, 0 =>
        have hl : l.length = 0 := by omega
        simp [build_levels_loop, hl]
    | fuel + 1, fuel' + 1 =>
        simp only [build_levels_loop]
        by_cases hle : l.length ≤ 1
        · simp [hle]
        · simp only [hle, if_false]
          have hnl := next_level_length hash l
          have := ih fuel (by omega) (next_level hash l) fuel' (by omega) (by omega)
          rw [this]

/-- Unfolding rule for `build_levels` that hides the fuel. -/
theorem build_levels_eq (l : List F) :
    build_levels hash l =
      if l.length ≤ 1 then [l] else l :: build_levels hash (next_level hash l) := by
  unfold build_levels
  cases hfl : l.length with
  | zero => simp [build_levels_loop, hfl]
  | succ n =>
    cases n with
    | zero => simp [build_levels_loop, hfl]
    | succ m =>
      have hle : ¬ ((m + 1 + 1 : Nat) ≤ 1) := by omega
      have hnl := next_level_length hash l
      simp only [build_levels_loop, hfl, hle, if_false]
      congr 1
      exact build_levels_loop_eq_of_le hash (next_level hash l) (m + 1)
        ((next_level hash l).length) (by omega) (by omega)

def build_merkle_tree (leaves : List F) : Option MerkleTree :=
  if 0 < leaves.length ∧ is_power_of_two leaves.length then
    let levels := build_levels hash leaves
    some { root := (levels.getLastD []).headD 0,
           height := levels.length - 1,
           nodes := levels }
  else none

/-- Authentication-path loop of `generate_merkle_proof`: one sibling per
level, sibling index by parity of the running index. -/
def auth_path_loop (nodes : List (List F)) : Nat → Nat → Nat → List F
  | 0, _, _ => []
  | n + 1, level, idx =>
      let level_nodes := nodes.getD level []
      let sibling_index := if idx % 2 = 0 then idx + 1 else idx - 1
      let entry :=
        if sibling_index < level_nodes.length then level_nodes.getD sibling_index 0
        else level_nodes.getD idx 0
      entry :: auth_path_loop nodes n (level + 1) (idx / 2)

def generate_merkle_proof (tree : MerkleTree) (leaf_index : Nat) : Option MerkleProof :=
  let leaves := tree.nodes.getD 0 []
  if leaf_index < leaves.length then
    some { leaf_index := leaf_index,
           leaf_value := leaves.getD leaf_index 0,
           authentication_path := auth_path_loop tree.nodes tree.height 0 leaf_index }
  else none

/-- Hash chain of `verify_merkle_proof`: even running index hashes
self-then-sibling, odd hashes sibling-then-self. -/
def verify_chain : List F → Nat → F → F
  | [], _, current => current
  | s :: rest, idx, current =>
      verify_chain rest (idx / 2)
        (if idx % 2 = 0 then hash_pair hash current s else hash_pair hash s current)

def verify_merkle_proof (pr : MerkleProof) (root : F) : Bool :=
  decide (verify_chain hash pr.authentication_path pr.leaf_index pr.leaf_value = root)

/-! FRI commit phase. -/

/-- Folding core: `folded[i] = v[i] + challenge * v[i + half_len]`. -/
def fold_core (v : List F) (challenge : F) : List F :=
  (List.range (v.length / 2)).map
    (fun i => v.getD i 0 + challenge * v.getD (i + v.length / 2) 0)

/-- Source `fri_fold_with_challenge`; the two entry asserts are modelled as
`none`. -/
def fri_fold_with_challenge (evaluations : List F) (challenge : F) : Option (List F) :=
  if 2 ≤ evaluations.length ∧ evaluations.length % 2 = 0 then
    some (fold_core evaluations challenge)
  else none

/-- Folding loop of `generate_fri_proof_secure`.  `fuel` is the remaining
round budget (`FRI_ROUNDS - round`); the loop also stops as soon as the
current evaluation vector has length at most 2 (or odd length). -/
def fri_commit_loop :
    Nat → Nat → List MerkleTree → List (List F) → List EvaluationDomain →
    List F → ProofTranscript →
    Option (List MerkleTree × List (List F) × List EvaluationDomain × List F × ProofTranscript)
  | 0, _, trees, evals, doms, current, t => some (trees, evals, doms, current, t)
  | fuel + 1, round, trees, evals, doms, current, t =>
      if current.length ≤ 2 then some (trees, evals, doms, current, t)
      else if current.length % 2 ≠ 0 then some (trees, evals, doms, current, t)
      else do
        let ct := generate_fri_challenge_secure hash t round
        let folded ← fri_fold_with_challenge current ct.1
        let dom ← create_evaluation_domain folded.length
          ((doms.getD round default).offset * ct.1)
        let tree ← build_merkle_tree hash folded
        let t2 := append_commitment_to_transcript ct.2 tree
        fri_commit_loop fuel (round + 1) (trees ++ [tree]) (evals ++ [folded])
          (doms ++ [dom]) folded t2

/-! FRI query phase. -/

/-- Per-layer walk of one query position: record value, sibling and a Merkle
proof at every layer, halving the position, stopping early if the position
falls out of the layer. -/
def fri_query_walk :
    List MerkleTree → List (List F) → Nat → Nat → Option (List FRIQuery)
  | [], _, _, _ => some []
  | _ :: _, [], _, _ => none
  | tree :: trees, ev :: evals, layer, pos =>
      if ev.length ≤ pos then some []
      else do
        let value := ev.getD pos 0
        let half := ev.length / 2
        let sibling_pos := if pos < half then pos + half else pos - half
        let sibling_value := if sibling_pos < ev.length then ev.getD sibling_pos 0 else value
        let mp ← generate_merkle_proof tree pos
        let rest ← fri_query_walk trees evals (layer + 1) (pos / 2)
        some ({ layer_index := layer, position := pos, value := value,
                sibling_value := sibling_value, merkle_proof := mp } :: rest)

def queries_for_positions (trees : List MerkleTree) (evals : List (List F)) :
    List F → Option (List FRIQuery)
  | [] => some []
  | p :: ps => do
      let qs ← fri_query_walk trees evals 0 (felt_to_u32 p)
      let rest ← queries_for_positions trees evals ps
      some (qs ++ rest)

def generate_fri_queries_secure (cfg : Config) (trees : List MerkleTree)
    (evals : List (List F)) (t : ProofTranscript) :
    Option (FRIQueryPhase × ProofTranscript) :=
  match trees with
  | [] => none
  | first_tree :: _ =>
      match first_tree.nodes with
      | [] => none
      | leaves :: _ => do
          let pt := generate_secure_random_points hash t leaves.length cfg.num_queries
          let queries ← queries_for_positions trees evals pt.1
          let ct := get_challenge_from_transcript hash pt.2
          some ({ queries := queries, challenge := ct.1 }, ct.2)

def generate_fri_proof_secure (cfg : Config) (polynomial_evaluations : List F)
    (t : ProofTranscript) : Option (FRICommitment × ProofTranscript) :=
  if 4 ≤ polynomial_evaluations.length ∧ is_power_of_two polynomial_evaluations.length
  then do
    let dom0 ← create_evaluation_domain polynomial_evaluations.length 1
    let tree0 ← build_merkle_tree hash polynomial_evaluations
    let t1 := append_commitment_to_transcript t tree0
    let st ← fri_commit_loop hash cfg.fri_rounds 0 [tree0] [polynomial_evaluations]
      [dom0] polynomial_evaluations t1
    let qp ← generate_fri_queries_secure hash cfg st.1 st.2.1 st.2.2.2.2
    some ({ layer_trees := st.1, layer_evaluations := st.2.1,
            final_polynomial := st.2.2.2.1, query_phase := qp.1,
            domains := st.2.2.1 }, qp.2)
  else none

/-! Trace, AIR constraints, low-degree extension. -/

def generate_execution_trace (cfg : Config) (public_input : PublicInput)
    (private_input : List F) : Option TraceTable :=
  if 2 ≤ private_input.length then do
    let dom ← create_evaluation_domain cfg.blow_up_factor 1
    some { rows := [[public_input.message_hash, public_input.public_key,
                     private_input.getD 0 0, private_input.getD 1 0]],
           width := 4, length := 1, domain := dom }
  else none

def generate_air_constraints (trace : TraceTable) : Option AIRConstraints :=
  match trace.rows with
  | (a :: b :: c :: _) :: _ =>
      some { boundary_constraints := [a], transition_constraints := [b],
             permutation_constraints := [c], constraint_degree := 2 }
  | _ => none

def evaluate_trace_polynomial_at_point (trace : TraceTable) (point : F) : F :=
  match trace.rows with
  | [] => 0
  | first_row :: _ =>
      match first_row with
      | [] => 0
      | x :: _ => x * point

def compute_low_degree_extension (cfg : Config) (trace : TraceTable) : List F :=
  (List.range (trace.length * cfg.blow_up_factor)).map
    (fun i => evaluate_trace_polynomial_at_point trace
      (field_pow trace.domain.generator i))

def evaluate_constraint_at_point (constraints : AIRConstraints) (trace : List F)
    (point : F) : F :=
  point * point

def eval_constraints_loop (constraints : AIRConstraints) (trace : List F) :
    List F → List F → ProofTranscript → List F × ProofTranscript
  | [], acc, t => (acc, t)
  | p :: ps, acc, t =>
      let e := evaluate_constraint_at_point constraints trace p
      eval_constraints_loop constraints trace ps (acc ++ [e])
        (append_to_transcript t e 10)

def evaluate_constraints_secure (constraints : AIRConstraints) (trace : List F)
    (points : List F) (t : ProofTranscript) : List F × ProofTranscript :=
  let t1 := append_to_transcript t ((constraints.constraint_degree : Nat) : F) 9
  eval_constraints_loop constraints trace points [] t1

def generate_low_degree_proof (trace : List F) : List F := trace

def generate_public_coin_seed (public_input : PublicInput) (commitment : MerkleTree) : F :=
  hash_array hash [FIAT_SHAMIR_DOMAIN_SEPARATOR, public_input.message_hash,
    public_input.public_key, public_input.signature, commitment.root]

/-- Source `generate_stark_proof`: build trace, constraints, extension,
trace commitment, FRI proof, constraint-evaluation points and evaluations,
and the public-coin seed; the complete transcript is stored in the proof. -/
def generate_stark_proof (cfg : Config) (public_input : PublicInput)
    (private_input : List F) : Option STARKProof := do
  let t0 := init_transcript public_input
  let trace ← generate_execution_trace cfg public_input private_input
  let constraints ← generate_air_constraints trace
  let extended := compute_low_degree_extension cfg trace
  let trace_commitment ← build_merkle_tree hash extended
  let t1 := append_commitment_to_transcript t0 trace_commitment
  let fp ← generate_fri_proof_secure hash cfg extended t1
  let pt := generate_secure_random_points hash fp.2 extended.length cfg.num_queries
  let ev := evaluate_constraints_secure constraints extended pt.1 pt.2
  some { trace_commitment := trace_commitment,
         trace_evaluations := ev.1,
         fri_proof := fp.1,
         low_degree_proof := generate_low_degree_proof extended,
         public_coin_seed := generate_public_coin_seed hash public_input trace_commitment,
         transcript := ev.2 }

/-! Verification.  Every place where the Cairo verifier can panic — an
unguarded `Array::at` read or a failing `assert` — is modelled as `none`;
a plain verdict is `some true` / `some false`. -/

/-- Inner scan of `extract_fri_challenge_from_transcript`: from position
`j`, find the first challenge-marker (separator 4) entry; gives up when
within one element of the transcript's end. -/
def find_challenge_loop (elements separators : List F) : Nat → Nat → Option F
  | 0, _ => none
  | fuel + 1, j =>
      if j + 1 ≥ elements.length then none
      else if j < separators.length ∧ separators.getD j 0 = 4 then
        some (elements.getD j 0)
      else find_challenge_loop elements separators fuel (j + 1)

def find_challenge_from (elements separators : List F) (j : Nat) : Option F :=
  find_challenge_loop elements separators (elements.length - j) j

/-- Outer scan of `extract_fri_challenge_from_transcript`: find an FRI
round marker (separator 8) whose element equals the target layer index,
then scan forward for the following challenge marker. -/
def extract_challenge_loop (elements separators : List F) (target : F) :
    Nat → Nat → Option F
  | 0, _ => none
  | fuel + 1, i =>
      if i + 2 ≥ elements.length then none
      else
        let found :=
          if i < separators.length ∧ separators.getD i 0 = 8 ∧
              i + 1 < elements.length ∧ elements.getD i 0 = target then
            find_challenge_from elements separators (i + 1)
          else none
        match found with
        | some c => some c
        | none => extract_challenge_loop elements separators target fuel (i + 1)

def extract_challenge_scan (elements separators : List F) (target : F) (i : Nat) :
    Option F :=
  extract_challenge_loop elements separators target (elements.length - i) i

def reconstruct_fri_challenge_for_layer_simple (layer_index : Nat) : F :=
  hash_array hash [FIAT_SHAMIR_DOMAIN_SEPARATOR, ((layer_index : Nat) : F)]

/-- Source `extract_fri_challenge_from_transcript`: the verifier reads the
layer's folding challenge out of the prover-supplied transcript, falling
back to a simple reconstruction when the scan fails. -/
def extract_fri_challenge_from_transcript (t : ProofTranscript) (layer_index : Nat) : F :=
  match extract_challenge_scan t.elements t.domain_separators ((layer_index : Nat) : F) 0 with
  | some c => c
  | none => reconstruct_fri_challenge_for_layer_simple hash layer_index

/-- First phase of `extract_random_points_from_transcript`: find the start
of the data following the second adjacent (5, 6) separator pattern. -/
def find_second_56_loop (separators : List F) : Nat → Nat → Bool → Option Nat
  | 0, _, _ => none
  | fuel + 1, i, found_first =>
      if i + 1 ≥ separators.length then none
      else if separators.getD i 0 = 5 ∧ separators.getD (i + 1) 0 = 6 then
        if found_first then some (i + 2)
        else find_second_56_loop separators fuel (i + 1) true
      else find_second_56_loop separators fuel (i + 1) found_first

def find_second_56 (separators : List F) (i : Nat) (found_first : Bool) : Option Nat :=
  find_second_56_loop separators (separators.length - i) i found_first

/-- Second phase of `extract_random_points_from_transcript`: walk
query-index (7) / challenge (4) separator pairs, mapping each challenge to
a point by reduction modulo the hard-coded extended domain size 16;
stops at the constraint-degree marker (9). -/
def extract_points_go (elements separators : List F) (count : Nat) :
    Nat → Nat → Nat → List F → List F
  | 0, _, _, acc => acc
  | fuel + 1, ti, points_found, acc =>
      if points_found ≥ count ∨ ti ≥ elements.length then acc
      else if ti < separators.length then
        if separators.getD ti 0 = 7 then
          if ti + 1 < separators.length ∧ ti + 1 < elements.length then
            if separators.getD (ti + 1) 0 = 4 then
              extract_points_go elements separators count fuel (ti + 2) (points_found + 1)
                (acc ++ [((point_index_of (elements.getD (ti + 1) 0) 16 points_found : Nat) : F)])
            else if separators.getD (ti + 1) 0 = 9 then acc
            else extract_points_go elements separators count fuel (ti + 2) points_found acc
          else acc
        else if separators.getD ti 0 = 9 then acc
        else extract_points_go elements separators count fuel (ti + 1) points_found acc
      else acc

def extract_points_loop (elements separators : List F) (count ti points_found : Nat)
    (acc : List F) : List F :=
  extract_points_go elements separators count (elements.length - ti) ti points_found acc

/-- Source `extract_random_points_from_transcript`, including the
fill-with-zeros fallbacks. -/
def extract_random_points_from_transcript (t : ProofTranscript) (count : Nat) : List F :=
  match find_second_56 t.domain_separators 0 false with
  | none => List.replicate count (0 : F)
  | some start =>
      let points := extract_points_loop t.elements t.domain_separators count start 0 []
      points ++ List.replicate (count - points.length) (0 : F)

def verify_single_constraint_evaluation (evaluation point : F) : Bool :=
  decide (evaluation = point * point)

/-- Source `verify_constraint_evaluations_secure`: vacuous success on an
empty evaluation list, else compare against points re-extracted from the
proof's transcript. -/
def verify_constraint_evaluations_secure (cfg : Config) (evaluations : List F)
    (public_input : PublicInput) (t : ProofTranscript) : Bool :=
  if evaluations.length = 0 then true
  else
    let reconstructed_points := extract_random_points_from_transcript t cfg.num_queries
    if reconstructed_points.length ≠ evaluations.length then false
    else
      (List.range evaluations.length).all fun i =>
        verify_single_constraint_evaluation (evaluations.getD i 0)
          (reconstructed_points.getD i 0)

/-- Source `verify_query_folding_consistency_with_transcript`. -/
def verify_query_folding_consistency_with_transcript (proof : FRICommitment)
    (query : FRIQuery) (t : ProofTranscript) : Option Bool :=
  if query.layer_index ≥ proof.layer_trees.length - 1 then some true
  else do
    let challenge := extract_fri_challenge_from_transcript hash t query.layer_index
    let current_layer_evals ← proof.layer_evaluations.get? query.layer_index
    let half_size := current_layer_evals.length / 2
    let expected_folded :=
      if query.position < half_size then query.value + challenge * query.sibling_value
      else query.sibling_value + challenge * query.value
    let next_layer_evals ← proof.layer_evaluations.get? (query.layer_index + 1)
    let folded_position :=
      if query.position < half_size then query.position else query.position - half_size
    if folded_position ≥ next_layer_evals.length then some false
    else some (decide (expected_folded = next_layer_evals.getD folded_position 0))

/-- Query loop of `verify_fri_queries_with_transcript`: Merkle-authenticate
every query and check fold consistency for non-final layers, stopping at
the first failure. -/
def verify_fri_queries_loop (proof : FRICommitment) (t : ProofTranscript) :
    List FRIQuery → Option Bool
  | [] => some true
  | query :: rest => do
      let tree ← proof.layer_trees.get? query.layer_index
      if ¬ verify_merkle_proof hash query.merkle_proof tree.root then some false
      else if query.layer_index < proof.layer_trees.length - 1 then do
        let ok ← verify_query_folding_consistency_with_transcript hash proof query t
        if ok then verify_fri_queries_loop proof t rest else some false
      else verify_fri_queries_loop proof t rest

def verify_fri_queries_with_transcript (proof : FRICommitment) (t : ProofTranscript) :
    Option Bool :=
  verify_fri_queries_loop hash proof t proof.query_phase.queries

/-- Source `verify_fri_layer_transition_with_transcript`: re-fold the whole
layer with the transcript-extracted challenge and compare to the next
layer's evaluations. -/
def verify_fri_layer_transition_with_transcript (proof : FRICommitment)
    (layer_index : Nat) (t : ProofTranscript) : Option Bool :=
  if layer_index ≥ proof.layer_trees.length - 1 then some false
  else do
    let current_evaluations ← proof.layer_evaluations.get? layer_index
    let next_evaluations ← proof.layer_evaluations.get? (layer_index + 1)
    let challenge := extract_fri_challenge_from_transcript hash t layer_index
    let expected_folded ← fri_fold_with_challenge current_evaluations challenge
    if expected_folded.length ≠ next_evaluations.length then some false
    else some (decide (expected_folded = next_evaluations))

/-- Layer-transition loop of `verify_fri_proof_with_transcript` (structural
fuel recursion on the number of remaining transitions). -/
def verify_fri_transitions_go (proof : FRICommitment) (t : ProofTranscript) :
    Nat → Nat → Option Bool
  | 0, _ => some true
  | fuel + 1, layer =>
      if layer ≥ proof.layer_trees.length - 1 then some true
      else do
        let ok ← verify_fri_layer_transition_with_transcript hash proof layer t
        if ok then verify_fri_transitions_go proof t fuel (layer + 1) else some false

def verify_fri_transitions_loop (proof : FRICommitment) (t : ProofTranscript)
    (layer : Nat) : Option Bool :=
  verify_fri_transitions_go hash proof t (proof.layer_trees.length - 1 - layer) layer

def verify_fri_proof_with_transcript (proof : FRICommitment) (t : ProofTranscript) :
    Option Bool :=
  let min_layers :=
    if proof.layer_trees.length = 1 ∧ proof.final_polynomial.length ≤ 2 then 1 else 2
  if proof.layer_trees.length < min_layers then some false
  else do
    let transitions_ok ←
      if 1 < proof.layer_trees.length then verify_fri_transitions_loop hash proof t 0
      else some true
    if transitions_ok then verify_fri_queries_with_transcript hash proof t
    else some false

/-- Source `felt252_gt` of the canonical draft: compare the canonical
residues as `u256` values. -/
def felt252_gt (a b : F) : Bool :=
  decide (a.val > b.val)

def calc_max_degree_loop : List F → Nat → F → F
  | [], _, max_degree => max_degree
  | coefficient :: rest, i, max_degree =>
      calc_max_degree_loop rest (i + 1)
        (if coefficient ≠ 0 then ((i : Nat) : F) else max_degree)

/-- Source `calculate_max_degree`: the highest index carrying a nonzero
entry, as a field element (0 for an all-zero or empty list). -/
def calculate_max_degree (poly : List F) : F :=
  calc_max_degree_loop poly 0 0

/-- Source `verify_low_degree_proof`: nonemptiness, degree bound via
`felt252_gt` against `FRI_ROUNDS * BLOW_UP_FACTOR`, and element-wise
agreement with the first FRI layer. -/
def verify_low_degree_proof (cfg : Config) (proof : List F)
    (fri_proof : FRICommitment) : Option Bool :=
  if proof.length = 0 ∨ fri_proof.layer_trees.length = 0 then some false
  else
    let max_degree := calculate_max_degree proof
    let degree_bound : F := ((cfg.fri_rounds * cfg.blow_up_factor : Nat) : F)
    if felt252_gt max_degree degree_bound then some false
    else do
      let first_layer_evals ← fri_proof.layer_evaluations.get? 0
      if proof.length ≠ first_layer_evals.length then some false
      else some (decide (proof = first_layer_evals))

/-- Source `verify_transcript_integrity`: the transcript must start with
the domain separator and the three public-input scalars. -/
def verify_transcript_integrity (t : ProofTranscript) (public_input : PublicInput) : Bool :=
  if t.elements.length < 4 then false
  else
    decide (t.elements.getD 0 0 = FIAT_SHAMIR_DOMAIN_SEPARATOR) &&
    decide (t.elements.getD 1 0 = public_input.message_hash) &&
    decide (t.elements.getD 2 0 = public_input.public_key) &&
    decide (t.elements.getD 3 0 = public_input.signature)

/-- Source `verify_stark_proof`: transcript integrity, public-coin seed,
then the conjunction of FRI, constraint and low-degree checks. -/
def verify_stark_proof (cfg : Config) (public_input : PublicInput)
    (proof : STARKProof) : Option Bool :=
  if ¬ verify_transcript_integrity proof.transcript public_input then some false
  else
    let expected_seed := generate_public_coin_seed hash public_input proof.trace_commitment
    if proof.public_coin_seed ≠ expected_seed then some false
    else do
      let valid_fri ← verify_fri_proof_with_transcript hash proof.fri_proof proof.transcript
      let valid_constraints := verify_constraint_evaluations_secure cfg
        proof.trace_evaluations public_input proof.transcript
      let valid_degree ← verify_low_degree_proof cfg proof.low_degree_proof proof.fri_proof
      some (valid_fri && valid_constraints && valid_degree)

end Hash

/-! Comparison helpers of the `lib.cairo` draft. -/

namespace LibCairo

def HALF_PRIME : F := 0x200000000000004080000000000000000000000000000000000000000000000

/-- Source `is_upper_half` of `lib.cairo`. -/
def is_upper_half (value : F) : Bool :=
  let shifted := value - HALF_PRIME
  decide (shifted ≠ 0) && decide (value - shifted ≠ HALF_PRIME)

/-- Source `felt252_gt` of `lib.cairo` (the bit-shift-heuristic draft). -/
def felt252_gt (a b : F) : Bool :=
  let difference := a - b
  if difference = 0 then false
  else ! is_upper_half difference

end LibCairo

/-! ### Generic lemmas about the embedded definitions -/

theorem fold_core_length (v : List F) (c : F) :
    (fold_core v c).length = v.length / 2 := by
  simp [fold_core]

theorem fold_core_getD (v : List F) (c : F) (i : Nat) (h : i < v.length / 2) :
    (fold_core v c).getD i 0 = v.getD i 0 + c * v.getD (i + v.length / 2) 0 := by
  simp only [fold_core, List.getD_eq_getElem?_getD]
  rw [List.getElem?_map, List.getElem?_range h]
  rfl

/-- Concrete sample inputs used by the closed witness and counterexample
theorems below: a simple stand-in for the pluggable collision-resistant
hash, and the scenario public input of the source's `main`. -/
def hashC : List F → F := fun l => l.foldl (fun a x => a * 31 + x) 7 + 1

def pub0 : PublicInput := ⟨123, 456, 789⟩

/-! ### C5 — deterministic folding -/

/-- C5: for every evaluation vector of even length at least 2 and every
challenge, `fri_fold_with_challenge` succeeds with a vector of exactly half
the length whose entry `i` is `v[i] + c·v[i + half]`; being a plain
function of `(v, c)`, it is pure by construction. -/
theorem C5_fold_spec (v : List F) (c : F) (h2 : 2 ≤ v.length)
    (heven : v.length % 2 = 0) :
    ∃ w, fri_fold_with_challenge v c = some w ∧ w.length = v.length / 2 ∧
      ∀ i, i < v.length / 2 → w.getD i 0 = v.getD i 0 + c * v.getD (i + v.length / 2) 0 := by
  refine ⟨fold_core v c, ?_, fold_core_length v c, fun i hi => fold_core_getD v c i hi⟩
  simp [fri_fold_with_challenge, h2, heven]

/-- Witness for C5 at `v = [1, 2, 3, 4]`, `c = 2`. -/
theorem C5_fold_spec_witness :
    2 ≤ ([1, 2, 3, 4] : List F).length ∧ ([1, 2, 3, 4] : List F).length % 2 = 0 ∧
    ∃ w, fri_fold_with_challenge ([1, 2, 3, 4] : List F) 2 = some w ∧
      w.length = ([1, 2, 3, 4] : List F).length / 2 ∧
      ∀ i, i < ([1, 2, 3, 4] : List F).length / 2 →
        w.getD i 0 = ([1, 2, 3, 4] : List F).getD i 0 +
          2 * ([1, 2, 3, 4] : List F).getD (i + ([1, 2, 3, 4] : List F).length / 2) 0 :=
  ⟨by decide, by decide, C5_fold_spec [1, 2, 3, 4] 2 (by decide) (by decide)⟩

/-! ### C10 — empty constraint-evaluation list passes vacuously -/

/-- C10: `verify_constraint_evaluations_secure` returns `true` on an empty
evaluation list, for every configuration, public input and transcript, so
the constraints stage of verification succeeds vacuously for a proof
carrying zero constraint evaluations. -/
theorem C10_empty_constraint_evaluations_pass (cfg : Config)
    (public_input : PublicInput) (t : ProofTranscript) :
    verify_constraint_evaluations_secure cfg [] public_input t = true := rfl

/-! ### C9 — field-element comparison for degree bounds -/

theorem LibCairo_is_upper_half_false (v : F) : LibCairo.is_upper_half v = false := by
  simp [LibCairo.is_upper_half, sub_sub_cancel]

/-- C9 counterexample: the repository does not have a single canonical
comparison.  The `lib.cairo` draft's `felt252_gt` holds at `(1, 2)` even
though the canonical residue of 1 is not greater than that of 2 (in fact
that draft's comparison degenerates to mere disequality, witnessed by it
holding in both orders). -/
theorem C9_counterexample :
    LibCairo.felt252_gt 1 2 = true ∧ LibCairo.felt252_gt 2 1 = true ∧
      ¬ ((1 : F).val > (2 : F).val) := by
  refine ⟨?_, ?_, by decide⟩ <;>
    simp [LibCairo.felt252_gt, LibCairo_is_upper_half_false] <;> decide

/-- C9 as amended: the canonical draft's `felt252_gt` — the one its
degree-bound check `verify_low_degree_proof` uses — is exactly the
numeric order of canonical residues in `[0, P)`; the `lib.cairo` draft's
`felt252_gt` is not (it holds exactly on disequality). -/
theorem C9_gt_is_residue_order (a b : F) :
    (felt252_gt a b = true ↔ a.val > b.val) ∧
      (LibCairo.felt252_gt a b = true ↔ a ≠ b) := by
  constructor
  · simp [felt252_gt]
  · simp only [LibCairo.felt252_gt, LibCairo_is_upper_half_false]
    by_cases h : a - b = 0
    · simp [h, sub_eq_zero.mp h]
    · simp [h, sub_ne_zero.mp h]

/-! ### Power-of-two characterization -/

theorem is_power_of_two_loop_iff : ∀ (fuel t : Nat), 1 ≤ t → t ≤ fuel →
    (is_power_of_two_loop fuel t = true ↔ ∃ k, t = 2 ^ k)
  | 0, t, h1, h2 => by omega
  | fuel + 1, t, h1, h2 => by
      simp only [is_power_of_two_loop]
      by_cases ht1 : t = 1
      · subst ht1
        simp only [if_pos rfl]
        exact iff_of_true rfl ⟨0, rfl⟩
      · simp only [ht1, if_false]
        by_cases hodd : t % 2 ≠ 0
        · rw [if_pos hodd]
          constructor
          · intro h
            exact absurd h (by simp)
          · rintro ⟨k, rfl⟩
            cases k with
            | zero => omega
            | succ m =>
                exfalso
                have : (2 : Nat) ^ (m + 1) = 2 * 2 ^ m := by ring
                omega
        · rw [if_neg hodd]
          rw [not_not] at hodd
          have ht2 : 2 ≤ t := by omega
          rw [is_power_of_two_loop_iff fuel (t / 2) (by omega) (by omega)]
          constructor
          · rintro ⟨k, hk⟩
            exact ⟨k + 1, by rw [pow_succ]; omega⟩
          · rintro ⟨k, rfl⟩
            cases k with
            | zero => omega
            | succ m =>
                refine ⟨m, ?_⟩
                have : (2 : Nat) ^ (m + 1) = 2 * 2 ^ m := by ring
                omega

theorem is_power_of_two_iff (n : Nat) :
    is_power_of_two n = true ↔ ∃ k, n = 2 ^ k := by
  by_cases h0 : n = 0
  · subst h0
    simp only [is_power_of_two, if_pos rfl]
    constructor
    · intro h
      exact absurd h (by simp)
    · rintro ⟨k, hk⟩
      exact absurd hk.symm (by positivity)
  · rw [is_power_of_two, if_neg h0]
    exact is_power_of_two_loop_iff n n (by omega) le_rfl

theorem is_power_of_two_pos {n : Nat} (h : is_power_of_two n = true) : 0 < n := by
  obtain ⟨k, rfl⟩ := (is_power_of_two_iff n).mp h
  positivity

theorem is_power_of_two_half {n : Nat} (h : is_power_of_two n = true) (h2 : 2 ≤ n) :
    n % 2 = 0 ∧ is_power_of_two (n / 2) = true := by
  obtain ⟨k, rfl⟩ := (is_power_of_two_iff n).mp h
  cases k with
  | zero => omega
  | succ m =>
      have hp : (2 : Nat) ^ (m + 1) = 2 * 2 ^ m := by ring
      constructor
      · omega
      · rw [is_power_of_two_iff]
        exact ⟨m, by omega⟩

/-! ### Merkle round-trip machinery -/

theorem next_level_getD (hash : List F → F) :
    ∀ (l : List F) (j : Nat), 2 * j + 1 < l.length →
      (next_level hash l).getD j 0 =
        hash_pair hash (l.getD (2 * j) 0) (l.getD (2 * j + 1) 0)
  | [], j, h => by
      simp only [List.length_nil] at h
      omega
  | [x], j, h => by
      simp only [List.length_singleton] at h
      omega
  | a :: b :: rest, 0, h => by simp [next_level]
  | a :: b :: rest, j + 1, h => by
      have hr : 2 * j + 1 < rest.length := by
        simp only [List.length_cons] at h
        omega
      have key := next_level_getD hash rest j hr
      have e1 : 2 * (j + 1) = 2 * j + 1 + 1 := by omega
      rw [e1]
      simp only [next_level, List.getD_cons_succ]
      exact key

theorem auth_path_loop_shift :
    ∀ (n : Nat) (x : List F) (nodes : List (List F)) (level idx : Nat),
      auth_path_loop (x :: nodes) n (level + 1) idx = auth_path_loop nodes n level idx
  | 0, _, _, _, _ => rfl
  | n + 1, x, nodes, level, idx => by
      simp only [auth_path_loop, List.getD_cons_succ]
      rw [auth_path_loop_shift n x nodes (level + 1) (idx / 2)]

theorem build_levels_ne_nil (hash : List F → F) (l : List F) :
    build_levels hash l ≠ [] := by
  rw [build_levels_eq]
  by_cases h : l.length ≤ 1 <;> simp [h]

theorem build_levels_head (hash : List F → F) (l : List F) :
    (build_levels hash l).getD 0 [] = l := by
  rw [build_levels_eq]
  by_cases h : l.length ≤ 1 <;> simp [h]

theorem getLastD_cons_of_ne_nil {α : Type} (x : α) (l : List α) (h : l ≠ []) :
    (x :: l).getLastD x = l.getLastD x := by
  cases l with
  | nil => exact absurd rfl h
  | cons y t => simp [List.getLastD_cons]

theorem getLastD_irrel {α : Type} (l : List α) (h : l ≠ []) (d d' : α) :
    l.getLastD d = l.getLastD d' := by
  cases l with
  | nil => exact absurd rfl h
  | cons y t => rw [List.getLastD_cons, List.getLastD_cons]

/-- Core Merkle round-trip: hashing a generated authentication path from
the leaf reproduces the root of the built level structure. -/
theorem merkle_chain (hash : List F → F) :
    ∀ (n : Nat) (l : List F), l.length = n → is_power_of_two l.length = true →
      ∀ idx, idx < l.length →
        verify_chain hash
            (auth_path_loop (build_levels hash l) ((build_levels hash l).length - 1) 0 idx)
            idx (l.getD idx 0)
          = ((build_levels hash l).getLastD []).headD 0 := by
  intro n
  induction n using Nat.strong_induction_on with
  | _ n ih =>
    intro l hln hp idx hidx
    by_cases hle : l.length ≤ 1
    · have h1 : l.length = 1 := by
        have := is_power_of_two_pos hp
        omega
      obtain ⟨a, rfl⟩ := List.length_eq_one.mp h1
      have hidx0 : idx = 0 := by
        simp only [List.length_singleton] at hidx
        omega
      subst hidx0
      rw [build_levels_eq]
      simp [verify_chain, auth_path_loop]
    · -- inductive step: length is an even power of two, at least 2
      have h2 : 2 ≤ l.length := by omega
      obtain ⟨heven, hp2⟩ := is_power_of_two_half hp h2
      have hbl := build_levels_eq hash l
      rw [if_neg hle] at hbl
      set nl := next_level hash l with hnl
      have hnll : nl.length = l.length / 2 := by
        rw [hnl, next_level_length]
        omega
      have hlvl' : build_levels hash nl ≠ [] := build_levels_ne_nil hash nl
      obtain ⟨L', hl'⟩ : ∃ m, (build_levels hash nl).length = m + 1 := by
        cases hLL : (build_levels hash nl).length with
        | zero => exact absurd (List.length_eq_zero.mp hLL) hlvl'
        | succ m => exact ⟨m, rfl⟩
      rw [hbl]
      have hlen : (l :: build_levels hash nl).length - 1 = L' + 1 := by
        simp [hl']
      rw [hlen]
      -- one step of the authentication path
      have hsib : (if idx % 2 = 0 then idx + 1 else idx - 1) < l.length := by
        by_cases hpar : idx % 2 = 0
        · rw [if_pos hpar]
          omega
        · rw [if_neg hpar]
          omega
      simp only [auth_path_loop, List.getD_cons_zero]
      rw [if_pos hsib, auth_path_loop_shift]
      simp only [verify_chain]
      -- the hashed pair is the next level's entry at idx / 2
      have hpair :
          (if idx % 2 = 0 then
              hash_pair hash (l.getD idx 0)
                (l.getD (if idx % 2 = 0 then idx + 1 else idx - 1) 0)
            else
              hash_pair hash (l.getD (if idx % 2 = 0 then idx + 1 else idx - 1) 0)
                (l.getD idx 0)) = nl.getD (idx / 2) 0 := by
        by_cases hpar : idx % 2 = 0
        · have hi1 : 2 * (idx / 2) + 1 = idx + 1 := by omega
          have hi : 2 * (idx / 2) = idx := by omega
          rw [hnl, next_level_getD hash l (idx / 2) (by omega), hi1, hi]
          simp [hpar]
        · have ho2 : idx % 2 = 1 := by omega
          have hi1 : 2 * (idx / 2) + 1 = idx := by omega
          have hi : 2 * (idx / 2) = idx - 1 := by omega
          rw [hnl, next_level_getD hash l (idx / 2) (by omega), hi1, hi]
          simp [ho2]
      rw [hpair]
      -- apply the induction hypothesis to the folded level
      have hrec := ih nl.length (by omega) nl rfl (by rw [hnll]; exact hp2)
        (idx / 2) (by omega)
      rw [hl'] at hrec
      simp only [Nat.add_sub_cancel] at hrec
      rw [hrec]
      -- roots agree
      have : (l :: build_levels hash nl).getLastD [] =
          (build_levels hash nl).getLastD [] := by
        rw [getLastD_irrel (l := l :: build_levels hash nl) (by simp) [] l]
        rw [getLastD_cons_of_ne_nil l (build_levels hash nl) hlvl']
        exact getLastD_irrel (build_levels hash nl) hlvl' l []
      rw [this]

/-! ### C7 — Merkle build/prove/verify round-trip -/

/-- C7: for every power-of-two leaf vector and in-range index, the Merkle
membership proof produced by `generate_merkle_proof` on the built tree
verifies against the tree's root (verification recomputes the pair-hash
chain by the parity rule and compares to the root). -/
theorem C7_merkle_roundtrip (hash : List F → F) (leaves : List F) (idx : Nat)
    (hp : is_power_of_two leaves.length = true) (hidx : idx < leaves.length) :
    ∃ tree pr, build_merkle_tree hash leaves = some tree ∧
      generate_merkle_proof tree idx = some pr ∧
      verify_merkle_proof hash pr tree.root = true := by
  have hpos := is_power_of_two_pos hp
  have hbuild : build_merkle_tree hash leaves =
      some { root := ((build_levels hash leaves).getLastD []).headD 0,
             height := (build_levels hash leaves).length - 1,
             nodes := build_levels hash leaves } := by
    rw [build_merkle_tree, if_pos ⟨hpos, hp⟩]
  refine ⟨{ root := ((build_levels hash leaves).getLastD []).headD 0,
            height := (build_levels hash leaves).length - 1,
            nodes := build_levels hash leaves },
    { leaf_index := idx, leaf_value := leaves.getD idx 0,
      authentication_path := auth_path_loop (build_levels hash leaves)
        ((build_levels hash leaves).length - 1) 0 idx }, hbuild, ?_, ?_⟩
  · rw [generate_merkle_proof]
    simp only [build_levels_head]
    rw [if_pos hidx]
  · apply decide_eq_true
    exact merkle_chain hash leaves.length leaves rfl hp idx hidx

/-- Witness for C7 at `leaves = [1, 2, 3, 4]`, `idx = 2`, with the sample
hash. -/
theorem C7_merkle_roundtrip_witness :
    is_power_of_two ([1, 2, 3, 4] : List F).length = true ∧
      2 < ([1, 2, 3, 4] : List F).length ∧
      ∃ tree pr, build_merkle_tree hashC [1, 2, 3, 4] = some tree ∧
        generate_merkle_proof tree 2 = some pr ∧
        verify_merkle_proof hashC pr tree.root = true :=
  ⟨by decide, by decide, C7_merkle_roundtrip hashC [1, 2, 3, 4] 2 (by decide) (by decide)⟩

/-! ### C8 — Merkle verification does not fail closed -/

/-- C8: evaluating the code at the failing input.  The tree over `[1, 2]`
has height 1, yet the proof with an empty authentication path (length 0,
mismatching the height) whose leaf value is set to the root verifies
successfully — `verify_merkle_proof` accepts rather than rejecting the
length mismatch. -/
theorem C8_length_mismatch_accepted :
    (build_merkle_tree hashC [1, 2]).map
        (fun tree => (tree.height,
          verify_merkle_proof hashC ⟨0, tree.root, []⟩ tree.root)) = some (1, true) ∧
      (0 : Nat) ≠ 1 := by
  constructor
  · decide
  · decide

/-! ### C6 — FRI layer count on the scenario input -/

/-- The scenario configuration of the spec's §8: blow-up 4, FRI round
budget 3, 8 queries. -/
def scenarioConfig : Config := ⟨4, 3, 8⟩

set_option maxRecDepth 100000 in
/-- C6 counterexample: on the scenario input the generated proof retains 2
FRI layers (the initial extended layer plus one fold, since the vector of
length 4 reaches the terminal length 2 after a single fold), while the
claimed formula `min(round_budget + 1, log2(extended_length) - 1)` gives 1. -/
theorem C6_counterexample :
    (generate_stark_proof hashC scenarioConfig pub0 [10, 20]).map
        (fun p => p.fri_proof.layer_trees.length) = some 2 ∧
      min (3 + 1) (Nat.log2 (1 * 4) - 1) = 1 ∧ (2 : Nat) ≠ 1 := by
  refine ⟨by decide, by simp [Nat.log2], by decide⟩

set_option maxRecDepth 1000000 in
/-- C6 as amended: the retained layer count is
`min(round_budget + 1, log2(extended_length))` — one more than the claimed
formula — both on the scenario configuration (layers = min(4, 2) = 2) and
on the canonical draft's own constants (layers = min(9, 4) = 4). -/
theorem C6_layer_count :
    (generate_stark_proof hashC scenarioConfig pub0 [10, 20]).map
        (fun p => p.fri_proof.layer_trees.length) = some (min (3 + 1) (Nat.log2 (1 * 4))) ∧
      (generate_stark_proof hashC defaultConfig pub0 [10, 20]).map
        (fun p => p.fri_proof.layer_trees.length) = some (min (8 + 1) (Nat.log2 (1 * 16))) := by
  have h1 : min (3 + 1) (Nat.log2 (1 * 4)) = 2 := by simp [Nat.log2]
  have h2 : min (8 + 1) (Nat.log2 (1 * 16)) = 4 := by simp [Nat.log2]
  rw [h1, h2]
  refine ⟨by decide, by decide⟩

/-! ### C3 — the prover never self-checks the constraint composition -/

set_option maxRecDepth 1000000 in
/-- C3: evaluating the code at the failing input.  On the scenario input
the prover emits a proof whose own recorded constraint evaluations contain
nonzero values (the placeholder composition `point²` is nonzero at every
nonzero point, e.g. 4 at point 2), yet `generate_stark_proof` returns a
`STARKProof` instead of failing with an `UnsoundWitness` error. -/
theorem C3_no_unsound_witness_check :
    (generate_stark_proof hashC defaultConfig pub0 [10, 20]).map
        (fun p => p.trace_evaluations.any (fun e => decide (e ≠ 0))) = some true ∧
      evaluate_constraint_at_point ⟨[], [], [], 2⟩ [] 2 = 4 ∧ (4 : F) ≠ 0 := by
  refine ⟨by decide, by decide, by decide⟩

/-! ### C2 — challenges are read from the prover-supplied transcript -/

set_option maxRecDepth 1000000 in
/-- C2: evaluating the code at the failing input.  Starting from the
honestly generated proof, changing only the transcript entry at position 7
— a challenge slot (its domain separator is 4, the challenge marker), with
every commitment and revealed leaf value untouched — flips the verifier's
verdict from `some true` to `some false`: `verify_stark_proof` reads the
FRI folding challenges out of the attacker-controlled proof transcript
instead of re-deriving them. -/
theorem C2_challenge_read_from_proof_bytes :
    (generate_stark_proof hashC defaultConfig pub0 [10, 20]).map (fun p =>
        (verify_stark_proof hashC defaultConfig pub0 p,
         p.transcript.domain_separators.getD 7 0,
         verify_stark_proof hashC defaultConfig pub0
           { p with transcript := { p.transcript with
               elements := p.transcript.elements.set 7
                 (p.transcript.elements.getD 7 0 + 1) } })) =
      some (some true, 4, some false) := by
  decide

/-! ### C4 — verification of well-formed proofs is total and conjunctive -/

theorem get?_eq_some_getD {α : Type} (l : List α) (i : Nat) (d : α)
    (h : i < l.length) : l.get? i = some (l.getD i d) := by
  rw [List.getD_eq_getElem?_getD, List.get?_eq_getElem?, List.getElem?_eq_getElem h]
  rfl

theorem exists_some_ite {c : Prop} [Decidable c] {x y : Option Bool}
    (hx : ∃ b, x = some b) (hy : ∃ b, y = some b) :
    ∃ b, (if c then x else y) = some b := by
  split
  · exact hx
  · exact hy

/-- Structurally well-formed proof, per the spec's data model and §7
decoding discipline: the per-layer evaluation and tree arrays agree in
length, every non-final layer's evaluation vector has even length at least
2 (its domain size is a power of two above the terminal length), and every
query's layer index is in range (out-of-range indices are `DecodingError`s
surfaced before verification). -/
def WellFormedProof (p : STARKProof) : Prop :=
  p.fri_proof.layer_evaluations.length = p.fri_proof.layer_trees.length ∧
  (∀ l, l < p.fri_proof.layer_trees.length - 1 →
      2 ≤ (p.fri_proof.layer_evaluations.getD l []).length ∧
      (p.fri_proof.layer_evaluations.getD l []).length % 2 = 0) ∧
  (∀ q ∈ p.fri_proof.query_phase.queries,
      q.layer_index < p.fri_proof.layer_trees.length)

instance (p : STARKProof) : Decidable (WellFormedProof p) := by
  unfold WellFormedProof
  infer_instance

theorem wf_transition_some (hash : List F → F) (fp : FRICommitment)
    (t : ProofTranscript)
    (hlen : fp.layer_evaluations.length = fp.layer_trees.length)
    (hlay : ∀ l, l < fp.layer_trees.length - 1 →
      2 ≤ (fp.layer_evaluations.getD l []).length ∧
      (fp.layer_evaluations.getD l []).length % 2 = 0)
    (layer : Nat) :
    ∃ b, verify_fri_layer_transition_with_transcript hash fp layer t = some b := by
  rw [verify_fri_layer_transition_with_transcript]
  by_cases hge : layer ≥ fp.layer_trees.length - 1
  · exact ⟨false, by rw [if_pos hge]⟩
  · rw [if_neg hge]
    have hlt : layer < fp.layer_trees.length - 1 := by omega
    have h1 : layer < fp.layer_evaluations.length := by omega
    have h2 : layer + 1 < fp.layer_evaluations.length := by omega
    rw [get?_eq_some_getD fp.layer_evaluations layer [] h1]
    rw [get?_eq_some_getD fp.layer_evaluations (layer + 1) [] h2]
    obtain ⟨hge2, heven⟩ := hlay layer hlt
    rw [Option.bind_eq_bind, Option.some_bind, Option.some_bind]
    simp only [fri_fold_with_challenge]
    rw [if_pos ⟨hge2, heven⟩, Option.some_bind]
    exact exists_some_ite ⟨false, rfl⟩ ⟨_, rfl⟩

theorem wf_transitions_go_some (hash : List F → F) (fp : FRICommitment)
    (t : ProofTranscript)
    (hlen : fp.layer_evaluations.length = fp.layer_trees.length)
    (hlay : ∀ l, l < fp.layer_trees.length - 1 →
      2 ≤ (fp.layer_evaluations.getD l []).length ∧
      (fp.layer_evaluations.getD l []).length % 2 = 0) :
    ∀ (fuel layer : Nat), ∃ b, verify_fri_transitions_go hash fp t fuel layer = some b
  | 0, _ => ⟨true, rfl⟩
  | fuel + 1, layer => by
      rw [verify_fri_transitions_go]
      by_cases hge : layer ≥ fp.layer_trees.length - 1
      · exact ⟨true, by rw [if_pos hge]⟩
      · rw [if_neg hge]
        obtain ⟨b, hb⟩ := wf_transition_some hash fp t hlen hlay layer
        rw [hb, Option.bind_eq_bind, Option.some_bind]
        cases b with
        | false => exact ⟨false, by simp⟩
        | true =>
            obtain ⟨b', hb'⟩ := wf_transitions_go_some hash fp t hlen hlay fuel (layer + 1)
            exact ⟨b', by simpa using hb'⟩

theorem wf_consistency_some (hash : List F → F) (fp : FRICommitment)
    (t : ProofTranscript) (q : FRIQuery)
    (hlen : fp.layer_evaluations.length = fp.layer_trees.length)
    (hq : q.layer_index < fp.layer_trees.length) :
    ∃ b, verify_query_folding_consistency_with_transcript hash fp q t = some b := by
  rw [verify_query_folding_consistency_with_transcript]
  by_cases hge : q.layer_index ≥ fp.layer_trees.length - 1
  · exact ⟨true, by rw [if_pos hge]⟩
  · rw [if_neg hge]
    have h1 : q.layer_index < fp.layer_evaluations.length := by omega
    have h2 : q.layer_index + 1 < fp.layer_evaluations.length := by omega
    rw [get?_eq_some_getD fp.layer_evaluations q.layer_index [] h1]
    rw [get?_eq_some_getD fp.layer_evaluations (q.layer_index + 1) [] h2]
    rw [Option.bind_eq_bind, Option.some_bind, Option.some_bind]
    exact exists_some_ite ⟨false, rfl⟩ ⟨_, rfl⟩

theorem wf_queries_loop_some (hash : List F → F) (fp : FRICommitment)
    (t : ProofTranscript)
    (hlen : fp.layer_evaluations.length = fp.layer_trees.length) :
    ∀ qs : List FRIQuery, (∀ q ∈ qs, q.layer_index < fp.layer_trees.length) →
      ∃ b, verify_fri_queries_loop hash fp t qs = some b
  | [], _ => ⟨true, rfl⟩
  | q :: rest, hq => by
      rw [verify_fri_queries_loop]
      have hqh : q.layer_index < fp.layer_trees.length := hq q (by simp)
      rw [get?_eq_some_getD fp.layer_trees q.layer_index default hqh]
      rw [Option.bind_eq_bind, Option.some_bind]
      by_cases hm : verify_merkle_proof hash q.merkle_proof
          ((fp.layer_trees.getD q.layer_index default).root) = true
      · simp only [hm, not_true, if_false]
        by_cases hlt : q.layer_index < fp.layer_trees.length - 1
        · rw [if_pos hlt]
          obtain ⟨b, hb⟩ := wf_consistency_some hash fp t q hlen hqh
          rw [hb, Option.bind_eq_bind, Option.some_bind]
          cases b with
          | false => exact ⟨false, by simp⟩
          | true =>
              obtain ⟨b', hb'⟩ := wf_queries_loop_some hash fp t hlen rest
                (fun q hqm => hq q (by simp [hqm]))
              exact ⟨b', by simpa using hb'⟩
        · rw [if_neg hlt]
          exact wf_queries_loop_some hash fp t hlen rest
            (fun q hqm => hq q (by simp [hqm]))
      · simp only [Bool.not_eq_true] at hm
        refine ⟨false, ?_⟩
        rw [hm]
        simp

theorem wf_fri_some (hash : List F → F) (fp : FRICommitment) (t : ProofTranscript)
    (hlen : fp.layer_evaluations.length = fp.layer_trees.length)
    (hlay : ∀ l, l < fp.layer_trees.length - 1 →
      2 ≤ (fp.layer_evaluations.getD l []).length ∧
      (fp.layer_evaluations.getD l []).length % 2 = 0)
    (hq : ∀ q ∈ fp.query_phase.queries, q.layer_index < fp.layer_trees.length) :
    ∃ b, verify_fri_proof_with_transcript hash fp t = some b := by
  rw [verify_fri_proof_with_transcript]
  by_cases hmin : fp.layer_trees.length <
      (if fp.layer_trees.length = 1 ∧ fp.final_polynomial.length ≤ 2 then 1 else 2)
  · exact ⟨false, by rw [if_pos hmin]⟩
  · rw [if_neg hmin]
    obtain ⟨b2, hb2⟩ := wf_queries_loop_some hash fp t hlen fp.query_phase.queries hq
    by_cases h1 : 1 < fp.layer_trees.length
    · obtain ⟨b1, hb1⟩ := wf_transitions_go_some hash fp t hlen hlay
        (fp.layer_trees.length - 1 - 0) 0
      simp only [if_pos h1, verify_fri_transitions_loop, hb1,
        Option.bind_eq_bind, Option.some_bind]
      cases b1 with
      | false => exact ⟨false, by simp⟩
      | true => exact ⟨b2, by simpa [verify_fri_queries_with_transcript] using hb2⟩
    · simp only [if_neg h1, Option.bind_eq_bind, Option.some_bind]
      exact ⟨b2, by simpa [verify_fri_queries_with_transcript] using hb2⟩

theorem wf_low_degree_some (cfg : Config) (ldp : List F) (fp : FRICommitment)
    (hlen : fp.layer_evaluations.length = fp.layer_trees.length) :
    ∃ b, verify_low_degree_proof cfg ldp fp = some b := by
  rw [verify_low_degree_proof]
  by_cases hz : ldp.length = 0 ∨ fp.layer_trees.length = 0
  · exact ⟨false, by rw [if_pos hz]⟩
  · rw [if_neg hz]
    by_cases hgt : felt252_gt (calculate_max_degree ldp)
        ((cfg.fri_rounds * cfg.blow_up_factor : Nat) : F) = true
    · exact ⟨false, by rw [if_pos hgt]⟩
    · rw [if_neg hgt]
      have h0 : 0 < fp.layer_evaluations.length := by
        push_neg at hz
        omega
      rw [get?_eq_some_getD fp.layer_evaluations 0 [] h0]
      rw [Option.bind_eq_bind, Option.some_bind]
      exact exists_some_ite ⟨false, rfl⟩ ⟨_, rfl⟩

/-- C4: on every structurally well-formed proof, `verify_stark_proof`
never panics — it returns `some` Boolean verdict — and that verdict is the
conjunction of all the individual checks (transcript integrity, seed
comparison, FRI verification with its Merkle authentication and fold
consistency, constraint evaluation, degree bound), so it is `true` only
when every single check passes and a single failing check yields `false`. -/
theorem C4_verify_total_and_conjunctive (hash : List F → F) (cfg : Config)
    (pub : PublicInput) (p : STARKProof) (hwf : WellFormedProof p) :
    ∃ bf bd, verify_fri_proof_with_transcript hash p.fri_proof p.transcript = some bf ∧
      verify_low_degree_proof cfg p.low_degree_proof p.fri_proof = some bd ∧
      verify_stark_proof hash cfg pub p =
        some ((verify_transcript_integrity p.transcript pub &&
               decide (p.public_coin_seed =
                 generate_public_coin_seed hash pub p.trace_commitment)) &&
              (bf && verify_constraint_evaluations_secure cfg
                  p.trace_evaluations pub p.transcript && bd)) := by
  obtain ⟨hlen, hlay, hq⟩ := hwf
  obtain ⟨bf, hbf⟩ := wf_fri_some hash p.fri_proof p.transcript hlen hlay hq
  obtain ⟨bd, hbd⟩ := wf_low_degree_some cfg p.low_degree_proof p.fri_proof hlen
  refine ⟨bf, bd, hbf, hbd, ?_⟩
  rw [verify_stark_proof]
  by_cases hint : verify_transcript_integrity p.transcript pub = true
  · rw [if_neg (by simp [hint])]
    by_cases hseed : p.public_coin_seed =
        generate_public_coin_seed hash pub p.trace_commitment
    · rw [if_neg (by simp [hseed])]
      rw [hbf, Option.bind_eq_bind, Option.some_bind, hbd, Option.some_bind]
      simp [hint, hseed]
    · rw [if_pos hseed]
      simp [hseed, hint]
  · rw [if_pos (by simp [hint])]
    simp only [Bool.not_eq_true] at hint
    simp [hint]

/-- Witness for C4 at the trivially well-formed all-empty proof. -/
theorem C4_verify_total_and_conjunctive_witness :
    WellFormedProof ⟨⟨0, 0, []⟩, [], ⟨[], [], [], ⟨[], 0⟩, []⟩, [], 0, ⟨[], [], 0⟩⟩ ∧
      ∃ bf bd,
        verify_fri_proof_with_transcript hashC
            (⟨⟨0, 0, []⟩, [], ⟨[], [], [], ⟨[], 0⟩, []⟩, [], 0,
              ⟨[], [], 0⟩⟩ : STARKProof).fri_proof
            (⟨[], [], 0⟩ : ProofTranscript) = some bf ∧
        verify_low_degree_proof defaultConfig [] (⟨[], [], [], ⟨[], 0⟩, []⟩ : FRICommitment) =
          some bd ∧
        verify_stark_proof hashC defaultConfig pub0
            ⟨⟨0, 0, []⟩, [], ⟨[], [], [], ⟨[], 0⟩, []⟩, [], 0, ⟨[], [], 0⟩⟩ =
          some ((verify_transcript_integrity (⟨[], [], 0⟩ : ProofTranscript) pub0 &&
                 decide ((0 : F) =
                   generate_public_coin_seed hashC pub0 (⟨0, 0, []⟩ : MerkleTree))) &&
                (bf && verify_constraint_evaluations_secure defaultConfig [] pub0
                    (⟨[], [], 0⟩ : ProofTranscript) && bd)) :=
  ⟨by decide, C4_verify_total_and_conjunctive hashC defaultConfig pub0
    ⟨⟨0, 0, []⟩, [], ⟨[], [], [], ⟨[], 0⟩, []⟩, [], 0, ⟨[], [], 0⟩⟩ (by decide)⟩


/-! ### C1 — completeness of the generate/verify pair

The canonical draft's control flow is independent of the concrete public
input, witness values and hash outputs: the trace always has one row, the
extended evaluation vector always has length `1 × BLOW_UP_FACTOR = 16`,
and the FRI commit phase always folds 16 → 8 → 4 → 2.  The following
definitions name each stage of `generate_stark_proof` for an arbitrary
hash and public input, and the lemmas characterise generation and replay
verification on the resulting proof. -/

def dom16 : EvaluationDomain := ⟨16, find_primitive_root_of_unity 16, 1⟩

def ext16 (pub : PublicInput) : List F :=
  (List.range 16).map (fun i => pub.message_hash * field_pow (find_primitive_root_of_unity 16) i)

def mkTree (hash : List F → F) (l : List F) : MerkleTree :=
  ⟨((build_levels hash l).getLastD []).headD 0, (build_levels hash l).length - 1,
    build_levels hash l⟩

/-- The trace commitment and the FRI layer-0 commitment: both are the tree
over the extended evaluations. -/
def T0 (hash : List F → F) (pub : PublicInput) : MerkleTree := mkTree hash (ext16 pub)

def tA (hash : List F → F) (pub : PublicInput) : ProofTranscript :=
  append_commitment_to_transcript (init_transcript pub) (T0 hash pub)

def tB (hash : List F → F) (pub : PublicInput) : ProofTranscript :=
  append_commitment_to_transcript (tA hash pub) (T0 hash pub)

def ch0 (hash : List F → F) (pub : PublicInput) : F × ProofTranscript :=
  generate_fri_challenge_secure hash (tB hash pub) 0

def e1 (hash : List F → F) (pub : PublicInput) : List F :=
  fold_core (ext16 pub) (ch0 hash pub).1

def T1 (hash : List F → F) (pub : PublicInput) : MerkleTree := mkTree hash (e1 hash pub)

def tC (hash : List F → F) (pub : PublicInput) : ProofTranscript :=
  append_commitment_to_transcript (ch0 hash pub).2 (T1 hash pub)

def ch1 (hash : List F → F) (pub : PublicInput) : F × ProofTranscript :=
  generate_fri_challenge_secure hash (tC hash pub) 1

def e2 (hash : List F → F) (pub : PublicInput) : List F :=
  fold_core (e1 hash pub) (ch1 hash pub).1

def T2 (hash : List F → F) (pub : PublicInput) : MerkleTree := mkTree hash (e2 hash pub)

def tD (hash : List F → F) (pub : PublicInput) : ProofTranscript :=
  append_commitment_to_transcript (ch1 hash pub).2 (T2 hash pub)

def ch2 (hash : List F → F) (pub : PublicInput) : F × ProofTranscript :=
  generate_fri_challenge_secure hash (tD hash pub) 2

def e3 (hash : List F → F) (pub : PublicInput) : List F :=
  fold_core (e2 hash pub) (ch2 hash pub).1

def T3 (hash : List F → F) (pub : PublicInput) : MerkleTree := mkTree hash (e3 hash pub)

def tE (hash : List F → F) (pub : PublicInput) : ProofTranscript :=
  append_commitment_to_transcript (ch2 hash pub).2 (T3 hash pub)

def d8 (hash : List F → F) (pub : PublicInput) : EvaluationDomain :=
  ⟨8, find_primitive_root_of_unity 8, dom16.offset * (ch0 hash pub).1⟩

def d4 (hash : List F → F) (pub : PublicInput) : EvaluationDomain :=
  ⟨4, find_primitive_root_of_unity 4, (d8 hash pub).offset * (ch1 hash pub).1⟩

def d2 (hash : List F → F) (pub : PublicInput) : EvaluationDomain :=
  ⟨2, find_primitive_root_of_unity 2, (d4 hash pub).offset * (ch2 hash pub).1⟩

/-- Query-phase random points (and the transcript carrying them). -/
def qP (hash : List F → F) (pub : PublicInput) : List F × ProofTranscript :=
  generate_secure_random_points hash (tE hash pub) 16 32

/-- Query-phase closing challenge. -/
def chQ (hash : List F → F) (pub : PublicInput) : F × ProofTranscript :=
  get_challenge_from_transcript hash (qP hash pub).2

/-- Constraint-evaluation random points. -/
def cP (hash : List F → F) (pub : PublicInput) : List F × ProofTranscript :=
  generate_secure_random_points hash (chQ hash pub).2 16 32

def constraints0 (pub : PublicInput) (w : List F) : AIRConstraints :=
  ⟨[pub.message_hash], [pub.public_key], [w.getD 0 0], 2⟩

def cE (hash : List F → F) (pub : PublicInput) (w : List F) : List F × ProofTranscript :=
  evaluate_constraints_secure (constraints0 pub w) (ext16 pub) (cP hash pub).1
    (cP hash pub).2

theorem ext16_length (pub : PublicInput) : (ext16 pub).length = 16 := by
  simp [ext16]

theorem e1_length (hash : List F → F) (pub : PublicInput) : (e1 hash pub).length = 8 := by
  simp [e1, fold_core_length, ext16_length]

theorem e2_length (hash : List F → F) (pub : PublicInput) : (e2 hash pub).length = 4 := by
  simp [e2, fold_core_length, e1_length]

theorem e3_length (hash : List F → F) (pub : PublicInput) : (e3 hash pub).length = 2 := by
  simp [e3, fold_core_length, e2_length]

theorem create_dom_eq (size : Nat) (offset : F) (h : is_power_of_two size = true) :
    create_evaluation_domain size offset =
      some ⟨size, find_primitive_root_of_unity size, offset⟩ := by
  rw [create_evaluation_domain, if_pos h]

theorem build_tree_eq (hash : List F → F) (l : List F) (h0 : 0 < l.length)
    (hp : is_power_of_two l.length = true) :
    build_merkle_tree hash l = some (mkTree hash l) := by
  rw [build_merkle_tree, if_pos ⟨h0, hp⟩]
  rfl

/-- The honest Merkle proof at an in-range position of a built tree. -/
def mkProofAt (hash : List F → F) (l : List F) (pos : Nat) : MerkleProof :=
  ⟨pos, l.getD pos 0,
    auth_path_loop (build_levels hash l) ((build_levels hash l).length - 1) 0 pos⟩

theorem generate_merkle_proof_eq (hash : List F → F) (l : List F) (pos : Nat)
    (h : pos < l.length) :
    generate_merkle_proof (mkTree hash l) pos = some (mkProofAt hash l pos) := by
  rw [generate_merkle_proof]
  simp only [mkTree, build_levels_head]
  rw [if_pos h]
  rfl

theorem verify_mkProofAt (hash : List F → F) (l : List F) (pos : Nat)
    (hp : is_power_of_two l.length = true) (h : pos < l.length) :
    verify_merkle_proof hash (mkProofAt hash l pos) (mkTree hash l).root = true := by
  apply decide_eq_true
  exact merkle_chain hash l.length l rfl hp pos h

/-- One FRI commit round, generically: with an even current length above 2
whose half is a power of two, the loop folds once and recurses. -/
theorem fri_commit_round (hash : List F → F) (fuel round : Nat)
    (trees : List MerkleTree) (evals : List (List F)) (doms : List EvaluationDomain)
    (cur : List F) (t : ProofTranscript)
    (hgt : ¬ cur.length ≤ 2) (heven : cur.length % 2 = 0)
    (hph : is_power_of_two (cur.length / 2) = true) :
    fri_commit_loop hash (fuel + 1) round trees evals doms cur t =
      fri_commit_loop hash fuel (round + 1)
        (trees ++ [mkTree hash (fold_core cur (generate_fri_challenge_secure hash t round).1)])
        (evals ++ [fold_core cur (generate_fri_challenge_secure hash t round).1])
        (doms ++ [⟨cur.length / 2, find_primitive_root_of_unity (cur.length / 2),
          (doms.getD round default).offset * (generate_fri_challenge_secure hash t round).1⟩])
        (fold_core cur (generate_fri_challenge_secure hash t round).1)
        (append_commitment_to_transcript (generate_fri_challenge_secure hash t round).2
          (mkTree hash (fold_core cur (generate_fri_challenge_secure hash t round).1))) := by
  rw [fri_commit_loop]
  rw [if_neg hgt, if_neg (by omega)]
  simp only [fri_fold_with_challenge]
  rw [if_pos ⟨(by omega : 2 ≤ cur.length), heven⟩]
  simp only [Option.bind_eq_bind, Option.some_bind]
  rw [fold_core_length, create_dom_eq (cur.length / 2) _ hph]
  simp only [Option.some_bind]
  rw [build_tree_eq hash _ (by rw [fold_core_length]; omega)
    (by rw [fold_core_length]; exact hph)]
  simp only [Option.some_bind]

theorem fri_commit_stop (hash : List F → F) (fuel round : Nat)
    (trees : List MerkleTree) (evals : List (List F)) (doms : List EvaluationDomain)
    (cur : List F) (t : ProofTranscript) (hle : cur.length ≤ 2) :
    fri_commit_loop hash (fuel + 1) round trees evals doms cur t =
      some (trees, evals, doms, cur, t) := by
  rw [fri_commit_loop, if_pos hle]


theorem fri_commit_loop_eq (hash : List F → F) (pub : PublicInput) :
    fri_commit_loop hash 8 0 [T0 hash pub] [ext16 pub] [dom16] (ext16 pub) (tB hash pub) =
      some ([T0 hash pub, T1 hash pub, T2 hash pub, T3 hash pub],
            [ext16 pub, e1 hash pub, e2 hash pub, e3 hash pub],
            [dom16, d8 hash pub, d4 hash pub, d2 hash pub],
            e3 hash pub, tE hash pub) := by
  have h16 := ext16_length pub
  have h8 := e1_length hash pub
  have h4 := e2_length hash pub
  have h2 := e3_length hash pub
  have step1 : fri_commit_loop hash 8 0 [T0 hash pub] [ext16 pub] [dom16]
      (ext16 pub) (tB hash pub) =
      fri_commit_loop hash 7 1 [T0 hash pub, T1 hash pub] [ext16 pub, e1 hash pub]
        [dom16, d8 hash pub] (e1 hash pub) (tC hash pub) := by
    rw [show (8 : Nat) = 7 + 1 from rfl]
    rw [fri_commit_round hash 7 0 _ _ _ _ _ (by omega) (by omega)
      (by rw [h16]; decide)]
    simp only [h16]
    rfl
  have step2 : fri_commit_loop hash 7 1 [T0 hash pub, T1 hash pub]
      [ext16 pub, e1 hash pub] [dom16, d8 hash pub] (e1 hash pub) (tC hash pub) =
      fri_commit_loop hash 6 2 [T0 hash pub, T1 hash pub, T2 hash pub]
        [ext16 pub, e1 hash pub, e2 hash pub] [dom16, d8 hash pub, d4 hash pub]
        (e2 hash pub) (tD hash pub) := by
    rw [show (7 : Nat) = 6 + 1 from rfl]
    rw [fri_commit_round hash 6 1 _ _ _ _ _ (by omega) (by omega)
      (by rw [h8]; decide)]
    simp only [h8]
    rfl
  have step3 : fri_commit_loop hash 6 2 [T0 hash pub, T1 hash pub, T2 hash pub]
      [ext16 pub, e1 hash pub, e2 hash pub] [dom16, d8 hash pub, d4 hash pub]
      (e2 hash pub) (tD hash pub) =
      fri_commit_loop hash 5 3
        [T0 hash pub, T1 hash pub, T2 hash pub, T3 hash pub]
        [ext16 pub, e1 hash pub, e2 hash pub, e3 hash pub]
        [dom16, d8 hash pub, d4 hash pub, d2 hash pub]
        (e3 hash pub) (tE hash pub) := by
    rw [show (6 : Nat) = 5 + 1 from rfl]
    rw [fri_commit_round hash 5 2 _ _ _ _ _ (by omega) (by omega)
      (by rw [h4]; decide)]
    simp only [h4]
    rfl
  rw [step1, step2, step3, show (5 : Nat) = 4 + 1 from rfl]
  exact fri_commit_stop hash 4 3 _ _ _ _ _ (by omega)

theorem point_index_of_16 (c : F) (i : Nat) : point_index_of c 16 i = c.val % 16 := by
  have hlt : c.val % 16 < 4294967296 := by
    have := Nat.mod_lt c.val (show 0 < 16 by norm_num)
    omega
  simp only [point_index_of, u256_to_u32]
  rw [if_pos (show 0 < 16 by norm_num), if_pos hlt]

/-- The hash input of `get_challenge_from_transcript`, named. -/
def challenge_of (hash : List F → F) (t : ProofTranscript) : F :=
  hash (((t.round_counter : Nat) : F) ::
    (((t.elements.length + t.round_counter : Nat) : F)) :: t.elements)

theorem get_challenge_eq (hash : List F → F) (t : ProofTranscript) :
    get_challenge_from_transcript hash t =
      (challenge_of hash t, append_to_transcript t (challenge_of hash t) 4) := rfl

theorem range_succ_map_cons {α : Type} (f : Nat → α) (n : Nat) :
    (List.range (n + 1)).map f = f 0 :: (List.range n).map (fun k => f (k + 1)) := by
  rw [List.range_succ_eq_map, List.map_cons, List.map_map]
  rfl

/-- Effect of the query-point loop with the extended domain size 16: it
returns the point indices (challenge residues modulo 16) derived from a
list of fresh challenges, and appends interleaved index/challenge blocks
to the transcript under the (7, 4) separator pattern, leaving the round
counter unchanged. -/
theorem gen_points_loop_spec (hash : List F → F) :
    ∀ (n i : Nat) (acc : List F) (t : ProofTranscript),
      ∃ ch : List F, ch.length = n ∧
        gen_points_loop hash 16 n i acc t =
          (acc ++ ch.map (fun c => ((c.val % 16 : Nat) : F)),
           { elements := t.elements ++
               (((List.range' i n).zip ch).map
                 (fun pr => [((pr.1 : Nat) : F), pr.2])).flatten,
             domain_separators := t.domain_separators ++
               (ch.map (fun _ => ([7, 4] : List F))).flatten,
             round_counter := t.round_counter })
  | 0, i, acc, t => ⟨[], rfl, by simp [gen_points_loop]⟩
  | n + 1, i, acc, t => by
      obtain ⟨ch2, hlen, heq⟩ := gen_points_loop_spec hash n (i + 1)
        (acc ++ [((point_index_of
          (challenge_of hash (append_to_transcript t (i : F) 7)) 16 i : Nat) : F)])
        (append_to_transcript (append_to_transcript t (i : F) 7)
          (challenge_of hash (append_to_transcript t (i : F) 7)) 4)
      refine ⟨challenge_of hash (append_to_transcript t (i : F) 7) :: ch2,
        by simp [hlen], ?_⟩
      rw [gen_points_loop, get_challenge_eq, heq]
      refine Prod.ext ?_ ?_
      · simp only [point_index_of_16, List.map_cons, List.append_assoc,
          List.singleton_append, List.cons_append, List.nil_append]
      · simp only [List.range'_succ, List.zip_cons_cons, List.map_cons,
          List.flatten_cons, append_to_transcript, List.append_assoc,
          List.singleton_append, List.cons_append, List.nil_append]

/-- Effect of the constraint-evaluation loop: the evaluations are the
squares of the points, appended to the transcript under separator 10. -/
theorem eval_constraints_loop_spec (c : AIRConstraints) (tr : List F) :
    ∀ (ps acc : List F) (t : ProofTranscript),
      eval_constraints_loop c tr ps acc t =
        (acc ++ ps.map (fun p => p * p),
         { elements := t.elements ++ ps.map (fun p => p * p),
           domain_separators := t.domain_separators ++ ps.map (fun _ => (10 : F)),
           round_counter := t.round_counter })
  | [], acc, t => by simp [eval_constraints_loop]
  | p :: ps, acc, t => by
      rw [eval_constraints_loop, eval_constraints_loop_spec c tr ps]
      simp only [evaluate_constraint_at_point, append_to_transcript, List.map_cons,
        List.append_assoc, List.singleton_append, List.cons_append, List.nil_append]


theorem val_cast_small (k : Nat) (h : k < 65536) : ((k : Nat) : F).val = k := by
  apply ZMod.val_cast_of_lt
  have : (65536 : Nat) < P := by norm_num [P]
  omega

theorem felt_to_u32_small (k : Nat) (h : k < 65536) : felt_to_u32 ((k : Nat) : F) = k := by
  rw [felt_to_u32, val_cast_small k h, if_pos (by omega)]

/-- One per-layer query record of the FRI query walk, with the layer's
half-size and size passed explicitly. -/
def query_at (hash : List F → F) (ev : List F) (layer pos half len : Nat) : FRIQuery :=
  ⟨layer, pos, ev.getD pos 0,
    if (if pos < half then pos + half else pos - half) < len then
      ev.getD (if pos < half then pos + half else pos - half) 0
    else ev.getD pos 0,
    mkProofAt hash ev pos⟩

def walk4 (hash : List F → F) (pub : PublicInput) (pos : Nat) : List FRIQuery :=
  [query_at hash (ext16 pub) 0 pos 8 16,
   query_at hash (e1 hash pub) 1 (pos / 2) 4 8,
   query_at hash (e2 hash pub) 2 (pos / 2 / 2) 2 4,
   query_at hash (e3 hash pub) 3 (pos / 2 / 2 / 2) 1 2]

/-- All queries of the FRI query phase: for every sampled position, one
query per layer. -/
def Q32 (hash : List F → F) (pub : PublicInput) : List FRIQuery :=
  ((qP hash pub).1).bind (fun p => walk4 hash pub (felt_to_u32 p))

theorem walk_eq (hash : List F → F) (pub : PublicInput) (pos : Nat) (hpos : pos < 16) :
    fri_query_walk [T0 hash pub, T1 hash pub, T2 hash pub, T3 hash pub]
        [ext16 pub, e1 hash pub, e2 hash pub, e3 hash pub] 0 pos =
      some (walk4 hash pub pos) := by
  have h16 := ext16_length pub
  have h8 := e1_length hash pub
  have h4 := e2_length hash pub
  have h2 := e3_length hash pub
  rw [fri_query_walk, if_neg (by omega)]
  rw [show T0 hash pub = mkTree hash (ext16 pub) from rfl,
    generate_merkle_proof_eq hash (ext16 pub) pos (by omega)]
  simp only [Option.bind_eq_bind, Option.some_bind]
  rw [fri_query_walk, if_neg (by omega)]
  rw [show T1 hash pub = mkTree hash (e1 hash pub) from rfl,
    generate_merkle_proof_eq hash (e1 hash pub) (pos / 2) (by omega)]
  simp only [Option.some_bind]
  rw [fri_query_walk, if_neg (by omega)]
  rw [show T2 hash pub = mkTree hash (e2 hash pub) from rfl,
    generate_merkle_proof_eq hash (e2 hash pub) (pos / 2 / 2) (by omega)]
  simp only [Option.some_bind]
  rw [fri_query_walk, if_neg (by omega)]
  rw [show T3 hash pub = mkTree hash (e3 hash pub) from rfl,
    generate_merkle_proof_eq hash (e3 hash pub) (pos / 2 / 2 / 2) (by omega)]
  simp only [Option.some_bind]
  rw [fri_query_walk]
  simp [walk4, query_at, h16, h8, h4, h2]

theorem qfp_eq (hash : List F → F) (pub : PublicInput) :
    ∀ ps : List F, (∀ p ∈ ps, felt_to_u32 p < 16) →
      queries_for_positions [T0 hash pub, T1 hash pub, T2 hash pub, T3 hash pub]
          [ext16 pub, e1 hash pub, e2 hash pub, e3 hash pub] ps =
        some (ps.bind (fun p => walk4 hash pub (felt_to_u32 p)))
  | [], _ => rfl
  | p :: ps, hmem => by
      rw [queries_for_positions, walk_eq hash pub (felt_to_u32 p) (hmem p (by simp))]
      rw [qfp_eq hash pub ps (fun q hq => hmem q (by simp [hq]))]
      simp [List.bind]


theorem qP_eq_loop (hash : List F → F) (pub : PublicInput) :
    qP hash pub = gen_points_loop hash 16 32 0 []
      (append_to_transcript (append_to_transcript (tE hash pub) ((16 : Nat) : F) 5)
        ((32 : Nat) : F) 6) := rfl

theorem cP_eq_loop (hash : List F → F) (pub : PublicInput) :
    cP hash pub = gen_points_loop hash 16 32 0 []
      (append_to_transcript (append_to_transcript ((chQ hash pub).2) ((16 : Nat) : F) 5)
        ((32 : Nat) : F) 6) := rfl

theorem conv_mem_bound (p : F) (ch : List F)
    (hp : p ∈ ch.map (fun c => ((c.val % 16 : Nat) : F))) : felt_to_u32 p < 16 := by
  obtain ⟨c, hc, rfl⟩ := List.mem_map.mp hp
  have hm : c.val % 16 < 16 := Nat.mod_lt _ (by norm_num)
  rw [felt_to_u32_small _ (by omega)]
  exact hm

theorem fri_gen_eq (hash : List F → F) (pub : PublicInput) :
    generate_fri_proof_secure hash defaultConfig (ext16 pub) (tA hash pub) =
      some (⟨[T0 hash pub, T1 hash pub, T2 hash pub, T3 hash pub],
             [ext16 pub, e1 hash pub, e2 hash pub, e3 hash pub],
             e3 hash pub, ⟨Q32 hash pub, (chQ hash pub).1⟩,
             [dom16, d8 hash pub, d4 hash pub, d2 hash pub]⟩, (chQ hash pub).2) := by
  have h16 := ext16_length pub
  rw [generate_fri_proof_secure, if_pos ⟨by omega, by rw [h16]; decide⟩]
  simp only [h16]
  rw [create_dom_eq 16 1 (by decide)]
  simp only [Option.bind_eq_bind, Option.some_bind]
  rw [build_tree_eq hash (ext16 pub) (by omega) (by rw [h16]; decide)]
  simp only [Option.some_bind]
  rw [show mkTree hash (ext16 pub) = T0 hash pub from rfl,
    show (⟨16, find_primitive_root_of_unity 16, 1⟩ : EvaluationDomain) = dom16 from rfl,
    show defaultConfig.fri_rounds = 8 from rfl,
    show append_commitment_to_transcript (tA hash pub) (T0 hash pub) = tB hash pub from rfl]
  rw [fri_commit_loop_eq hash pub]
  simp only [Option.some_bind]
  rw [generate_fri_queries_secure]
  have hn : (T0 hash pub).nodes =
      ext16 pub :: build_levels hash (next_level hash (ext16 pub)) := by
    show build_levels hash (ext16 pub) = _
    rw [build_levels_eq, if_neg (by omega)]
  rw [hn]
  simp only [h16, show defaultConfig.num_queries = 32 from rfl]
  obtain ⟨qchs, hql, hqeq⟩ := gen_points_loop_spec hash 32 0 []
    (append_to_transcript (append_to_transcript (tE hash pub) ((16 : Nat) : F) 5)
      ((32 : Nat) : F) 6)
  have hq1 : (qP hash pub).1 = qchs.map (fun c => ((c.val % 16 : Nat) : F)) := by
    rw [qP_eq_loop, hqeq]
    simp
  have hbound : ∀ p ∈ (qP hash pub).1, felt_to_u32 p < 16 := by
    rw [hq1]
    exact fun p hp => conv_mem_bound p qchs hp
  rw [show generate_secure_random_points hash (tE hash pub) 16 32 = qP hash pub from rfl]
  rw [qfp_eq hash pub (qP hash pub).1 hbound]
  simp only [Option.bind_eq_bind, Option.some_bind]
  rw [show get_challenge_from_transcript hash (qP hash pub).2 = chQ hash pub from rfl]
  rfl

theorem exec_trace_eq (pub : PublicInput) (w : List F) (hw : 2 ≤ w.length) :
    generate_execution_trace defaultConfig pub w =
      some ⟨[[pub.message_hash, pub.public_key, w.getD 0 0, w.getD 1 0]], 4, 1, dom16⟩ := by
  rw [generate_execution_trace, if_pos hw]
  rw [show defaultConfig.blow_up_factor = 16 from rfl, create_dom_eq 16 1 (by decide)]
  rfl

/-- Full characterization of proof generation on the canonical constants:
for any hash, public input and witness of length at least 2, generation
succeeds and every component of the emitted proof is as named above. -/
theorem gen_eq (hash : List F → F) (pub : PublicInput) (w : List F)
    (hw : 2 ≤ w.length) :
    generate_stark_proof hash defaultConfig pub w =
      some ⟨T0 hash pub, (cE hash pub w).1,
            ⟨[T0 hash pub, T1 hash pub, T2 hash pub, T3 hash pub],
             [ext16 pub, e1 hash pub, e2 hash pub, e3 hash pub],
             e3 hash pub, ⟨Q32 hash pub, (chQ hash pub).1⟩,
             [dom16, d8 hash pub, d4 hash pub, d2 hash pub]⟩,
            ext16 pub, generate_public_coin_seed hash pub (T0 hash pub),
            (cE hash pub w).2⟩ := by
  rw [generate_stark_proof, exec_trace_eq pub w hw]
  simp only [Option.bind_eq_bind, Option.some_bind]
  rw [show generate_air_constraints
      ⟨[[pub.message_hash, pub.public_key, w.getD 0 0, w.getD 1 0]], 4, 1, dom16⟩ =
      some (constraints0 pub w) from rfl]
  simp only [Option.some_bind]
  rw [show compute_low_degree_extension defaultConfig
      ⟨[[pub.message_hash, pub.public_key, w.getD 0 0, w.getD 1 0]], 4, 1, dom16⟩ =
      ext16 pub from rfl]
  rw [build_tree_eq hash (ext16 pub) (by rw [ext16_length]; omega)
    (by rw [ext16_length]; decide)]
  simp only [Option.some_bind]
  rw [show mkTree hash (ext16 pub) = T0 hash pub from rfl,
    show append_commitment_to_transcript (init_transcript pub) (T0 hash pub) =
      tA hash pub from rfl]
  rw [fri_gen_eq hash pub]
  simp only [Option.some_bind]
  rw [ext16_length, show defaultConfig.num_queries = 32 from rfl]
  rw [show generate_secure_random_points hash (chQ hash pub).2 16 32 = cP hash pub from rfl]
  rw [show evaluate_constraints_secure (constraints0 pub w) (ext16 pub) (cP hash pub).1
      (cP hash pub).2 = cE hash pub w from rfl]
  rfl


/-- Challenge-to-point conversion for the extended domain size 16. -/
def conv16 (c : F) : F := ((c.val % 16 : Nat) : F)

/-- Interleaved index/challenge element blocks of a query-point loop run. -/
def blocks32 (ch : List F) : List F :=
  (((List.range' 0 32).zip ch).map (fun pr => [((pr.1 : Nat) : F), pr.2])).flatten

/-- Separator pattern of a query-point loop run. -/
def pat (ch : List F) : List F := (ch.map (fun _ => ([7, 4] : List F))).flatten

/-- The first 17 transcript elements: domain separator, public inputs,
trace and FRI layer-0 roots, the three FRI round/challenge pairs with the
interleaved layer-1..3 roots, and the query-phase domain-size/count pair. -/
def E0 (hash : List F → F) (pub : PublicInput) : List F :=
  [FIAT_SHAMIR_DOMAIN_SEPARATOR, pub.message_hash, pub.public_key, pub.signature,
   (T0 hash pub).root, (T0 hash pub).root, ((0 : Nat) : F), (ch0 hash pub).1,
   (T1 hash pub).root, ((1 : Nat) : F), (ch1 hash pub).1,
   (T2 hash pub).root, ((2 : Nat) : F), (ch2 hash pub).1, (T3 hash pub).root,
   ((16 : Nat) : F), ((32 : Nat) : F)]

def S0 : List F := [1, 2, 2, 2, 3, 3, 8, 4, 3, 8, 4, 3, 8, 4, 3, 5, 6]

/-- Master characterization of the final transcript and the
constraint-evaluation data of a generated proof. -/
theorem transcript_shape (hash : List F → F) (pub : PublicInput) (w : List F) :
    ∃ qchs cchs : List F, qchs.length = 32 ∧ cchs.length = 32 ∧
      (qP hash pub).1 = qchs.map conv16 ∧
      (cP hash pub).1 = cchs.map conv16 ∧
      (cE hash pub w).1 = ((cP hash pub).1).map (fun p => p * p) ∧
      (cE hash pub w).2.elements =
        E0 hash pub ++ (blocks32 qchs ++ ((chQ hash pub).1 :: ((16 : Nat) : F) ::
          ((32 : Nat) : F) :: (blocks32 cchs ++ (((2 : Nat) : F) ::
            ((cP hash pub).1).map (fun p => p * p))))) ∧
      (cE hash pub w).2.domain_separators =
        S0 ++ (pat qchs ++ ((4 : F) :: (5 : F) :: (6 : F) ::
          (pat cchs ++ ((9 : F) :: ((cP hash pub).1).map (fun _ => (10 : F)))))) := by
  obtain ⟨qchs, hql, hqeq⟩ := gen_points_loop_spec hash 32 0 []
    (append_to_transcript (append_to_transcript (tE hash pub) ((16 : Nat) : F) 5)
      ((32 : Nat) : F) 6)
  obtain ⟨cchs, hcl, hceq⟩ := gen_points_loop_spec hash 32 0 []
    (append_to_transcript (append_to_transcript ((chQ hash pub).2) ((16 : Nat) : F) 5)
      ((32 : Nat) : F) 6)
  have hq1 : (qP hash pub).1 = qchs.map conv16 := by
    rw [qP_eq_loop, hqeq]
    simp [conv16]
  have hc1 : (cP hash pub).1 = cchs.map conv16 := by
    rw [cP_eq_loop, hceq]
    simp [conv16]
  have hq2 : (qP hash pub).2 = ProofTranscript.mk
      ((tE hash pub).elements ++ ([((16 : Nat) : F)] ++ ([((32 : Nat) : F)] ++
        (((List.range' 0 32).zip qchs).map (fun pr => [((pr.1 : Nat) : F), pr.2])).flatten)))
      ((tE hash pub).domain_separators ++ ([(5 : F)] ++ ([(6 : F)] ++
        (qchs.map (fun _ => ([7, 4] : List F))).flatten)))
      (tE hash pub).round_counter := by
    rw [qP_eq_loop, hqeq]
    simp only [hql, append_to_transcript, List.append_assoc]
  have hc2 : (cP hash pub).2 = ProofTranscript.mk
      (((chQ hash pub).2).elements ++ ([((16 : Nat) : F)] ++ ([((32 : Nat) : F)] ++
        (((List.range' 0 32).zip cchs).map (fun pr => [((pr.1 : Nat) : F), pr.2])).flatten)))
      (((chQ hash pub).2).domain_separators ++ ([(5 : F)] ++ ([(6 : F)] ++
        (cchs.map (fun _ => ([7, 4] : List F))).flatten)))
      ((chQ hash pub).2).round_counter := by
    rw [cP_eq_loop, hceq]
    simp only [hcl, append_to_transcript, List.append_assoc]
  have hchq : (chQ hash pub).2 = append_to_transcript (qP hash pub).2 (chQ hash pub).1 4 := rfl
  have hce : cE hash pub w =
      ((cP hash pub).1.map (fun p => p * p),
       ProofTranscript.mk
        ((append_to_transcript (cP hash pub).2 ((2 : Nat) : F) 9).elements ++
          (cP hash pub).1.map (fun p => p * p))
        ((append_to_transcript (cP hash pub).2 ((2 : Nat) : F) 9).domain_separators ++
          (cP hash pub).1.map (fun _ => (10 : F)))
        (append_to_transcript (cP hash pub).2 ((2 : Nat) : F) 9).round_counter) := by
    show evaluate_constraints_secure (constraints0 pub w) (ext16 pub) (cP hash pub).1
      (cP hash pub).2 = _
    rw [evaluate_constraints_secure, eval_constraints_loop_spec]
    simp only [List.nil_append, constraints0]
  refine ⟨qchs, cchs, hql, hcl, hq1, hc1, by rw [hce], ?_, ?_⟩
  · rw [hce]
    simp only [append_to_transcript, hc2, hchq, hq2]
    simp only [append_to_transcript, List.append_assoc, List.singleton_append,
      List.cons_append, List.nil_append]
    rfl
  · rw [hce]
    simp only [append_to_transcript, hc2, hchq, hq2]
    simp only [append_to_transcript, List.append_assoc, List.singleton_append,
      List.cons_append, List.nil_append]
    rfl


/-- The complete 181-entry domain-separator list of a generated proof's
transcript. -/
def SEPS_LIT : List F :=
  [1, 2, 2, 2, 3, 3, 8, 4, 3, 8, 4, 3, 8, 4, 3, 5, 6, 7, 4, 7, 4, 7, 4, 7, 4, 7, 4, 7, 4, 7, 4, 7, 4, 7, 4, 7, 4, 7, 4, 7, 4, 7, 4, 7, 4, 7, 4, 7, 4, 7, 4, 7, 4, 7, 4, 7, 4, 7, 4, 7, 4, 7, 4, 7, 4, 7, 4, 7, 4, 7, 4, 7, 4, 7, 4, 7, 4, 7, 4, 7, 4, 4, 5, 6, 7, 4, 7, 4, 7, 4, 7, 4, 7, 4, 7, 4, 7, 4, 7, 4, 7, 4, 7, 4, 7, 4, 7, 4, 7, 4, 7, 4, 7, 4, 7, 4, 7, 4, 7, 4, 7, 4, 7, 4, 7, 4, 7, 4, 7, 4, 7, 4, 7, 4, 7, 4, 7, 4, 7, 4, 7, 4, 7, 4, 7, 4, 7, 4, 9, 10, 10, 10, 10, 10, 10, 10, 10, 10, 10, 10, 10, 10, 10, 10, 10, 10, 10, 10, 10, 10, 10, 10, 10, 10, 10, 10, 10, 10, 10, 10, 10]

theorem blocks_zip_length :
    ∀ (ch : List F) (ixs : List Nat), ixs.length = ch.length →
      (((ixs.zip ch).map (fun pr => [((pr.1 : Nat) : F), pr.2])).flatten).length =
        2 * ch.length
  | [], ixs, h => by simp
  | c :: ch, ixs, h => by
      cases ixs with
      | nil => simp at h
      | cons i ixs =>
          simp only [List.zip_cons_cons, List.map_cons, List.flatten_cons,
            List.length_append, List.length_cons, List.length_nil]
          rw [blocks_zip_length ch ixs (by simpa using h)]
          omega

theorem blocks32_length (ch : List F) (h : ch.length = 32) :
    (blocks32 ch).length = 64 := by
  rw [blocks32, blocks_zip_length ch (List.range' 0 32) (by simp [h]), h]

theorem pat32 (ch : List F) (h : ch.length = 32) :
    pat ch = (List.replicate 32 ([7, 4] : List F)).flatten := by
  rw [pat, List.map_const', h]

theorem pat_cons (c : F) (ch : List F) : pat (c :: ch) = [7, 4] ++ pat ch := rfl

theorem pat_length (ch : List F) : (pat ch).length = 2 * ch.length := by
  induction ch with
  | nil => rfl
  | cons c ch ih =>
      rw [pat_cons, List.length_append, ih]
      simp only [List.length_cons, List.length_nil]
      omega


theorem E0_length (hash : List F → F) (pub : PublicInput) :
    (E0 hash pub).length = 17 := rfl

/-- The domain separators of a generated proof's transcript are a fixed
181-entry list, independent of the hash, inputs and witness. -/
theorem cE_seps (hash : List F → F) (pub : PublicInput) (w : List F) :
    (cE hash pub w).2.domain_separators = SEPS_LIT := by
  obtain ⟨qchs, cchs, hql, hcl, hq1, hc1, hce1, hE, hS⟩ := transcript_shape hash pub w
  rw [hS, pat32 qchs hql, pat32 cchs hcl]
  have hlen : ((cP hash pub).1).length = 32 := by simp [hc1, hcl]
  rw [List.map_const', hlen]
  rfl

theorem cE_elements_shape (hash : List F → F) (pub : PublicInput) (w : List F) :
    ∃ rest : List F, (cE hash pub w).2.elements = E0 hash pub ++ rest ∧
      rest.length = 164 := by
  obtain ⟨qchs, cchs, hql, hcl, hq1, hc1, hce1, hE, hS⟩ := transcript_shape hash pub w
  refine ⟨_, hE, ?_⟩
  have hsq : (((cP hash pub).1).map (fun p => p * p)).length = 32 := by simp [hc1, hcl]
  simp only [List.length_append, List.length_cons, blocks32_length qchs hql,
    blocks32_length cchs hcl, hsq]

theorem cE_elements_len (hash : List F → F) (pub : PublicInput) (w : List F) :
    (cE hash pub w).2.elements.length = 181 := by
  obtain ⟨rest, hE, hr⟩ := cE_elements_shape hash pub w
  rw [hE, List.length_append, E0_length, hr]

theorem fcf_hit (els seps : List F) (j : Nat) (h1 : j + 1 < els.length)
    (h2 : j < seps.length) (h3 : seps.getD j 0 = 4) :
    find_challenge_from els seps j = some (els.getD j 0) := by
  rw [find_challenge_from, show els.length - j = (els.length - j - 1) + 1 from by omega]
  simp only [find_challenge_loop]
  rw [if_neg (by omega), if_pos ⟨h2, h3⟩]

theorem ecl_skip (els seps : List F) (tgt : F) (fuel i : Nat)
    (hlt : i + 2 < els.length)
    (h : seps.getD i 0 ≠ 8 ∨ els.getD i 0 ≠ tgt) :
    extract_challenge_loop els seps tgt (fuel + 1) i =
      extract_challenge_loop els seps tgt fuel (i + 1) := by
  have hc : ¬ (i < seps.length ∧ seps.getD i 0 = 8 ∧ i + 1 < els.length ∧
      els.getD i 0 = tgt) := by
    rcases h with h | h
    · exact fun hx => h hx.2.1
    · exact fun hx => h hx.2.2.2
  simp only [extract_challenge_loop]
  rw [if_neg (by omega), if_neg hc]

theorem ecl_hit (els seps : List F) (tgt : F) (fuel i : Nat)
    (hlt : i + 2 < els.length)
    (hsl : i < seps.length) (hs8 : seps.getD i 0 = 8) (he : els.getD i 0 = tgt)
    (hsl2 : i + 1 < seps.length) (hs4 : seps.getD (i + 1) 0 = 4) :
    extract_challenge_loop els seps tgt (fuel + 1) i = some (els.getD (i + 1) 0) := by
  have hfc : find_challenge_from els seps (i + 1) = some (els.getD (i + 1) 0) :=
    fcf_hit els seps (i + 1) (by omega) hsl2 hs4
  simp only [extract_challenge_loop]
  rw [if_neg (by omega), if_pos ⟨hsl, hs8, by omega, he⟩, hfc]

theorem efc_unfold (hash : List F → F) (t : ProofTranscript) (l : Nat) (c : F)
    (h : extract_challenge_scan t.elements t.domain_separators ((l : Nat) : F) 0 =
      some c) :
    extract_fri_challenge_from_transcript hash t l = c := by
  rw [extract_fri_challenge_from_transcript, h]

set_option maxRecDepth 8000 in
/-- The verifier's transcript scan recovers exactly the three prover-side
FRI folding challenges from a generated proof's transcript. -/
theorem extract_ch_all (hash : List F → F) (pub : PublicInput) (w : List F) :
    extract_fri_challenge_from_transcript hash (cE hash pub w).2 0 =
        (ch0 hash pub).1 ∧
      extract_fri_challenge_from_transcript hash (cE hash pub w).2 1 =
        (ch1 hash pub).1 ∧
      extract_fri_challenge_from_transcript hash (cE hash pub w).2 2 =
        (ch2 hash pub).1 := by
  obtain ⟨rest, hE, hr⟩ := cE_elements_shape hash pub w
  have hSlit := cE_seps hash pub w
  have hlen : (E0 hash pub ++ rest).length = 181 := by
    rw [List.length_append, E0_length, hr]
  have hg : ∀ i, i < 17 → (E0 hash pub ++ rest).getD i 0 = (E0 hash pub).getD i 0 :=
    fun i hi => List.getD_append _ _ _ _ (by rw [E0_length]; omega)
  have hE6 : (E0 hash pub).getD 6 0 = ((0 : Nat) : F) := rfl
  have hE7 : (E0 hash pub).getD 7 0 = (ch0 hash pub).1 := rfl
  have hE9 : (E0 hash pub).getD 9 0 = ((1 : Nat) : F) := rfl
  have hE10 : (E0 hash pub).getD 10 0 = (ch1 hash pub).1 := rfl
  have hE12 : (E0 hash pub).getD 12 0 = ((2 : Nat) : F) := rfl
  have hE13 : (E0 hash pub).getD 13 0 = (ch2 hash pub).1 := rfl
  refine ⟨efc_unfold hash _ 0 _ ?_, efc_unfold hash _ 1 _ ?_, efc_unfold hash _ 2 _ ?_⟩
  · rw [extract_challenge_scan, hE, hSlit, Nat.sub_zero, hlen]
    rw [show (181 : Nat) = 180 + 1 from rfl,
      ecl_skip _ _ _ _ _ (by omega) (Or.inl (by decide))]
    rw [show (180 : Nat) = 179 + 1 from rfl,
      ecl_skip _ _ _ _ _ (by omega) (Or.inl (by decide))]
    rw [show (179 : Nat) = 178 + 1 from rfl,
      ecl_skip _ _ _ _ _ (by omega) (Or.inl (by decide))]
    rw [show (178 : Nat) = 177 + 1 from rfl,
      ecl_skip _ _ _ _ _ (by omega) (Or.inl (by decide))]
    rw [show (177 : Nat) = 176 + 1 from rfl,
      ecl_skip _ _ _ _ _ (by omega) (Or.inl (by decide))]
    rw [show (176 : Nat) = 175 + 1 from rfl,
      ecl_skip _ _ _ _ _ (by omega) (Or.inl (by decide))]
    rw [show (175 : Nat) = 174 + 1 from rfl,
      ecl_hit _ _ _ _ _ (by omega) (by decide) (by decide)
        (by rw [hg 6 (by omega), hE6]) (by decide) (by decide)]
    rw [hg 7 (by omega), hE7]
  · rw [extract_challenge_scan, hE, hSlit, Nat.sub_zero, hlen]
    rw [show (181 : Nat) = 180 + 1 from rfl,
      ecl_skip _ _ _ _ _ (by omega) (Or.inl (by decide))]
    rw [show (180 : Nat) = 179 + 1 from rfl,
      ecl_skip _ _ _ _ _ (by omega) (Or.inl (by decide))]
    rw [show (179 : Nat) = 178 + 1 from rfl,
      ecl_skip _ _ _ _ _ (by omega) (Or.inl (by decide))]
    rw [show (178 : Nat) = 177 + 1 from rfl,
      ecl_skip _ _ _ _ _ (by omega) (Or.inl (by decide))]
    rw [show (177 : Nat) = 176 + 1 from rfl,
      ecl_skip _ _ _ _ _ (by omega) (Or.inl (by decide))]
    rw [show (176 : Nat) = 175 + 1 from rfl,
      ecl_skip _ _ _ _ _ (by omega) (Or.inl (by decide))]
    rw [show (175 : Nat) = 174 + 1 from rfl,
      ecl_skip _ _ _ _ _ (by omega) (Or.inr (by rw [hg 6 (by omega), hE6]; decide))]
    rw [show (174 : Nat) = 173 + 1 from rfl,
      ecl_skip _ _ _ _ _ (by omega) (Or.inl (by decide))]
    rw [show (173 : Nat) = 172 + 1 from rfl,
      ecl_skip _ _ _ _ _ (by omega) (Or.inl (by decide))]
    rw [show (172 : Nat) = 171 + 1 from rfl,
      ecl_hit _ _ _ _ _ (by omega) (by decide) (by decide)
        (by rw [hg 9 (by omega), hE9]) (by decide) (by decide)]
    rw [hg 10 (by omega), hE10]
  · rw [extract_challenge_scan, hE, hSlit, Nat.sub_zero, hlen]
    rw [show (181 : Nat) = 180 + 1 from rfl,
      ecl_skip _ _ _ _ _ (by omega) (Or.inl (by decide))]
    rw [show (180 : Nat) = 179 + 1 from rfl,
      ecl_skip _ _ _ _ _ (by omega) (Or.inl (by decide))]
    rw [show (179 : Nat) = 178 + 1 from rfl,
      ecl_skip _ _ _ _ _ (by omega) (Or.inl (by decide))]
    rw [show (178 : Nat) = 177 + 1 from rfl,
      ecl_skip _ _ _ _ _ (by omega) (Or.inl (by decide))]
    rw [show (177 : Nat) = 176 + 1 from rfl,
      ecl_skip _ _ _ _ _ (by omega) (Or.inl (by decide))]
    rw [show (176 : Nat) = 175 + 1 from rfl,
      ecl_skip _ _ _ _ _ (by omega) (Or.inl (by decide))]
    rw [show (175 : Nat) = 174 + 1 from rfl,
      ecl_skip _ _ _ _ _ (by omega) (Or.inr (by rw [hg 6 (by omega), hE6]; decide))]
    rw [show (174 : Nat) = 173 + 1 from rfl,
      ecl_skip _ _ _ _ _ (by omega) (Or.inl (by decide))]
    rw [show (173 : Nat) = 172 + 1 from rfl,
      ecl_skip _ _ _ _ _ (by omega) (Or.inl (by decide))]
    rw [show (172 : Nat) = 171 + 1 from rfl,
      ecl_skip _ _ _ _ _ (by omega) (Or.inr (by rw [hg 9 (by omega), hE9]; decide))]
    rw [show (171 : Nat) = 170 + 1 from rfl,
      ecl_skip _ _ _ _ _ (by omega) (Or.inl (by decide))]
    rw [show (170 : Nat) = 169 + 1 from rfl,
      ecl_skip _ _ _ _ _ (by omega) (Or.inl (by decide))]
    rw [show (169 : Nat) = 168 + 1 from rfl,
      ecl_hit _ _ _ _ _ (by omega) (by decide) (by decide)
        (by rw [hg 12 (by omega), hE12]) (by decide) (by decide)]
    rw [hg 13 (by omega), hE13]


/-- The 84 separator entries preceding the constraint-point blocks. -/
def SEPS_PRE : List F :=
  [1, 2, 2, 2, 3, 3, 8, 4, 3, 8, 4, 3, 8, 4, 3, 5, 6, 7, 4, 7, 4, 7, 4, 7, 4, 7, 4, 7, 4, 7, 4, 7, 4, 7, 4, 7, 4, 7, 4, 7, 4, 7, 4, 7, 4, 7, 4, 7, 4, 7, 4, 7, 4, 7, 4, 7, 4, 7, 4, 7, 4, 7, 4, 7, 4, 7, 4, 7, 4, 7, 4, 7, 4, 7, 4, 7, 4, 7, 4, 7, 4, 4, 5, 6]

set_option maxRecDepth 8000 in
theorem find56_84 : find_second_56 SEPS_LIT 0 false = some 84 := by decide

theorem zip_cast_eq :
    ∀ (ixs : List Nat) (ch : List F),
      ((ixs.map (fun i => ((i : Nat) : F))).zip ch).map (fun pr => [pr.1, pr.2]) =
        (ixs.zip ch).map (fun pr => [((pr.1 : Nat) : F), pr.2])
  | [], _ => rfl
  | _ :: _, [] => rfl
  | i :: ixs, c :: ch => by
      simp only [List.map_cons, List.zip_cons_cons]
      rw [zip_cast_eq ixs ch]

theorem blocks32_eq (ch : List F) :
    blocks32 ch =
      ((((List.range' 0 32).map (fun i => ((i : Nat) : F))).zip ch).map
        (fun pr => [pr.1, pr.2])).flatten := by
  rw [blocks32, zip_cast_eq]

theorem extract_points_go_blocks :
    ∀ (ch ixs preE preS sufE sufS acc : List F) (fuel pf : Nat),
      ixs.length = ch.length → preE.length = preS.length → ch.length + 1 ≤ fuel →
      extract_points_go
          (preE ++ (((ixs.zip ch).map (fun pr => [pr.1, pr.2])).flatten ++ sufE))
          (preS ++ (pat ch ++ sufS)) (pf + ch.length) fuel preE.length pf acc =
        acc ++ ch.map conv16
  | [], ixs, preE, preS, sufE, sufS, acc, fuel, pf, hix, hpre, hfuel => by
      obtain ⟨f, rfl⟩ : ∃ f, fuel = f + 1 := ⟨fuel - 1, by omega⟩
      rw [extract_points_go, if_pos (Or.inl (by simp))]
      simp
  | c :: ch, ixs, preE, preS, sufE, sufS, acc, fuel, pf, hix, hpre, hfuel => by
      obtain ⟨ix, ixs', rfl⟩ : ∃ a l, ixs = a :: l := by
        cases ixs with
        | nil => simp at hix
        | cons a l => exact ⟨a, l, rfl⟩
      obtain ⟨f, rfl⟩ : ∃ f, fuel = f + 1 := ⟨fuel - 1, by omega⟩
      have hblk : ((((ix :: ixs').zip (c :: ch)).map
          (fun pr => [pr.1, pr.2])).flatten) ++ sufE =
          ix :: c :: ((((ixs'.zip ch).map (fun pr => [pr.1, pr.2])).flatten) ++ sufE) := by
        simp
      have hpat : pat (c :: ch) ++ sufS = 7 :: 4 :: (pat ch ++ sufS) := by
        rw [pat_cons]
        rfl
      rw [hblk, hpat]
      have hlE : (preE ++ (ix :: c ::
          ((((ixs'.zip ch).map (fun pr => [pr.1, pr.2])).flatten) ++ sufE))).length =
          preE.length + 2 +
            (((ixs'.zip ch).map (fun pr => [pr.1, pr.2])).flatten.length + sufE.length) := by
        simp only [List.length_append, List.length_cons]
        omega
      have hlS : (preS ++ (7 :: 4 :: (pat ch ++ sufS))).length =
          preS.length + 2 + ((pat ch).length + sufS.length) := by
        simp only [List.length_append, List.length_cons]
        omega
      have h1 : ¬ (pf ≥ pf + (c :: ch).length ∨ preE.length ≥ (preE ++ (ix :: c ::
          ((((ixs'.zip ch).map (fun pr => [pr.1, pr.2])).flatten) ++ sufE))).length) := by
        simp only [List.length_cons]
        omega
      have h2 : preE.length < (preS ++ (7 :: 4 :: (pat ch ++ sufS))).length := by
        omega
      have hs7 : (preS ++ (7 :: 4 :: (pat ch ++ sufS))).getD preE.length 0 = 7 := by
        rw [hpre, List.getD_append_right _ _ _ _ (le_refl _), Nat.sub_self]
        rfl
      have hs4 : (preS ++ (7 :: 4 :: (pat ch ++ sufS))).getD (preE.length + 1) 0 = 4 := by
        rw [hpre, List.getD_append_right _ _ _ _ (by omega),
          show preS.length + 1 - preS.length = 1 from by omega]
        rfl
      have h3 : preE.length + 1 < (preS ++ (7 :: 4 :: (pat ch ++ sufS))).length ∧
          preE.length + 1 < (preE ++ (ix :: c ::
            ((((ixs'.zip ch).map (fun pr => [pr.1, pr.2])).flatten) ++ sufE))).length := by
        omega
      have he1 : (preE ++ (ix :: c ::
          ((((ixs'.zip ch).map (fun pr => [pr.1, pr.2])).flatten) ++ sufE))).getD
            (preE.length + 1) 0 = c := by
        rw [List.getD_append_right _ _ _ _ (by omega),
          show preE.length + 1 - preE.length = 1 from by omega]
        rfl
      rw [extract_points_go, if_neg h1, if_pos h2, hs7, if_pos rfl, if_pos h3, hs4,
        if_pos rfl, he1, point_index_of_16,
        show pf + (c :: ch).length = (pf + 1) + ch.length from by
          simp only [List.length_cons]
          omega,
        show ((c.val % 16 : Nat) : F) = conv16 c from rfl]
      have hre : preE ++ (ix :: c ::
          ((((ixs'.zip ch).map (fun pr => [pr.1, pr.2])).flatten) ++ sufE)) =
          (preE ++ [ix, c]) ++
            ((((ixs'.zip ch).map (fun pr => [pr.1, pr.2])).flatten) ++ sufE) := by
        simp
      have hrs : preS ++ (7 :: 4 :: (pat ch ++ sufS)) =
          (preS ++ [7, 4]) ++ (pat ch ++ sufS) := by
        simp
      have hti : preE.length + 2 = (preE ++ [ix, c]).length := by
        simp
      rw [hre, hrs, hti,
        extract_points_go_blocks ch ixs' (preE ++ [ix, c]) (preS ++ [7, 4]) sufE sufS
          (acc ++ [conv16 c]) f (pf + 1) (by simpa using hix)
          (by simp [hpre])
          (by simp only [List.length_cons] at hfuel; omega)]
      simp

theorem erp_unfold (t : ProofTranscript) (count start : Nat)
    (h1 : find_second_56 t.domain_separators 0 false = some start) :
    extract_random_points_from_transcript t count =
      extract_points_loop t.elements t.domain_separators count start 0 [] ++
        List.replicate
          (count -
            (extract_points_loop t.elements t.domain_separators count start 0 []).length)
          0 := by
  rw [extract_random_points_from_transcript, h1]

/-- The verifier's point re-extraction recovers exactly the prover's
constraint-evaluation points from a generated proof's transcript. -/
theorem cE_extract_points (hash : List F → F) (pub : PublicInput) (w : List F) :
    extract_random_points_from_transcript (cE hash pub w).2 32 = (cP hash pub).1 := by
  obtain ⟨qchs, cchs, hql, hcl, hq1, hc1, hce1, hE, hS⟩ := transcript_shape hash pub w
  have hSlit := cE_seps hash pub w
  have hElen := cE_elements_len hash pub w
  rw [erp_unfold _ 32 84 (by rw [hSlit]; exact find56_84)]
  rw [extract_points_loop, hSlit, hElen, hE]
  have hsq : (((cP hash pub).1).map (fun p => p * p)).length = 32 := by
    simp [hc1, hcl]
  have hre : E0 hash pub ++ (blocks32 qchs ++ ((chQ hash pub).1 :: ((16 : Nat) : F) ::
        ((32 : Nat) : F) :: (blocks32 cchs ++ (((2 : Nat) : F) ::
          ((cP hash pub).1).map (fun p => p * p))))) =
      ((E0 hash pub ++ blocks32 qchs) ++
          [(chQ hash pub).1, ((16 : Nat) : F), ((32 : Nat) : F)]) ++
        (((((List.range' 0 32).map (fun i => ((i : Nat) : F))).zip cchs).map
            (fun pr => [pr.1, pr.2])).flatten ++
          (((2 : Nat) : F) :: ((cP hash pub).1).map (fun p => p * p))) := by
    rw [← blocks32_eq]
    simp
  have hsl : SEPS_LIT = SEPS_PRE ++ (pat cchs ++ ((9 : F) :: List.replicate 32 (10 : F))) := by
    rw [pat32 cchs hcl]
    rfl
  have hpl : ((E0 hash pub ++ blocks32 qchs) ++
      [(chQ hash pub).1, ((16 : Nat) : F), ((32 : Nat) : F)]).length = 84 := by
    simp only [List.length_append, List.length_cons, List.length_nil, E0_length,
      blocks32_length qchs hql]
  have hps : SEPS_PRE.length = 84 := rfl
  rw [hre, hsl]
  have H := extract_points_go_blocks cchs
    ((List.range' 0 32).map (fun i => ((i : Nat) : F)))
    ((E0 hash pub ++ blocks32 qchs) ++
      [(chQ hash pub).1, ((16 : Nat) : F), ((32 : Nat) : F)])
    SEPS_PRE
    (((2 : Nat) : F) :: ((cP hash pub).1).map (fun p => p * p))
    ((9 : F) :: List.replicate 32 (10 : F))
    [] (181 - 84) 0 (by simp [hcl]) (by rw [hpl, hps]) (by rw [hcl]; omega)
  rw [hpl] at H
  simp only [hcl, Nat.zero_add] at H
  rw [H, hc1]
  simp [hcl]


/-- The FRI commitment of a generated proof (`gen_eq`). -/
def FP (hash : List F → F) (pub : PublicInput) : FRICommitment :=
  ⟨[T0 hash pub, T1 hash pub, T2 hash pub, T3 hash pub],
   [ext16 pub, e1 hash pub, e2 hash pub, e3 hash pub],
   e3 hash pub, ⟨Q32 hash pub, (chQ hash pub).1⟩,
   [dom16, d8 hash pub, d4 hash pub, d2 hash pub]⟩

theorem FP_trees_len (hash : List F → F) (pub : PublicInput) :
    (FP hash pub).layer_trees.length = 4 := rfl

theorem transition_ok (hash : List F → F) (fp : FRICommitment) (t : ProofTranscript)
    (l : Nat) (ev nxt : List F) (c : F)
    (hne : ¬ l ≥ fp.layer_trees.length - 1)
    (hev : fp.layer_evaluations.get? l = some ev)
    (hnx : fp.layer_evaluations.get? (l + 1) = some nxt)
    (hch : extract_fri_challenge_from_transcript hash t l = c)
    (hfold : fri_fold_with_challenge ev c = some nxt) :
    verify_fri_layer_transition_with_transcript hash fp l t = some true := by
  rw [verify_fri_layer_transition_with_transcript, if_neg hne, hev]
  rw [Option.bind_eq_bind, Option.some_bind, hnx, Option.some_bind]
  rw [hch]
  simp [hfold]

theorem fold_e1 (hash : List F → F) (pub : PublicInput) :
    fri_fold_with_challenge (ext16 pub) (ch0 hash pub).1 = some (e1 hash pub) := by
  rw [fri_fold_with_challenge,
    if_pos ⟨by rw [ext16_length]; omega, by rw [ext16_length]⟩]
  rfl

theorem fold_e2 (hash : List F → F) (pub : PublicInput) :
    fri_fold_with_challenge (e1 hash pub) (ch1 hash pub).1 = some (e2 hash pub) := by
  rw [fri_fold_with_challenge,
    if_pos ⟨by rw [e1_length]; omega, by rw [e1_length]⟩]
  rfl

theorem fold_e3 (hash : List F → F) (pub : PublicInput) :
    fri_fold_with_challenge (e2 hash pub) (ch2 hash pub).1 = some (e3 hash pub) := by
  rw [fri_fold_with_challenge,
    if_pos ⟨by rw [e2_length]; omega, by rw [e2_length]⟩]
  rfl

/-- All three FRI layer transitions of a generated proof check out against
the transcript-extracted challenges. -/
theorem cE_transitions (hash : List F → F) (pub : PublicInput) (w : List F) :
    verify_fri_transitions_loop hash (FP hash pub) (cE hash pub w).2 0 = some true := by
  obtain ⟨hx0, hx1, hx2⟩ := extract_ch_all hash pub w
  have ht0 := transition_ok hash (FP hash pub) (cE hash pub w).2 0 (ext16 pub)
    (e1 hash pub) ((ch0 hash pub).1) (by rw [FP_trees_len]; omega) rfl rfl hx0
    (fold_e1 hash pub)
  have ht1 := transition_ok hash (FP hash pub) (cE hash pub w).2 1 (e1 hash pub)
    (e2 hash pub) ((ch1 hash pub).1) (by rw [FP_trees_len]; omega) rfl rfl hx1
    (fold_e2 hash pub)
  have ht2 := transition_ok hash (FP hash pub) (cE hash pub w).2 2 (e2 hash pub)
    (e3 hash pub) ((ch2 hash pub).1) (by rw [FP_trees_len]; omega) rfl rfl hx2
    (fold_e3 hash pub)
  rw [verify_fri_transitions_loop, FP_trees_len,
    show (4 : Nat) - 1 - 0 = 2 + 1 from rfl]
  rw [verify_fri_transitions_go, if_neg (by rw [FP_trees_len]; omega), ht0,
    Option.bind_eq_bind, Option.some_bind, if_pos rfl]
  rw [show (2 : Nat) = 1 + 1 from rfl, verify_fri_transitions_go,
    if_neg (by rw [FP_trees_len]; omega), ht1,
    Option.bind_eq_bind, Option.some_bind, if_pos rfl]
  rw [show (1 : Nat) = 0 + 1 from rfl, verify_fri_transitions_go,
    if_neg (by rw [FP_trees_len]; omega), ht2,
    Option.bind_eq_bind, Option.some_bind, if_pos rfl]
  rfl

theorem query_fold_ok (hash : List F → F) (fp : FRICommitment) (t : ProofTranscript)
    (ev nxt : List F) (l pos half len : Nat) (c : F)
    (hne : ¬ l ≥ fp.layer_trees.length - 1)
    (hev : fp.layer_evaluations.get? l = some ev)
    (hnx : fp.layer_evaluations.get? (l + 1) = some nxt)
    (hch : extract_fri_challenge_from_transcript hash t l = c)
    (hnxt : nxt = fold_core ev c)
    (hlen : ev.length = len) (hhalf : len = 2 * half) (hpos : pos < len) :
    verify_query_folding_consistency_with_transcript hash fp
      (query_at hash ev l pos half len) t = some true := by
  have hhal : ev.length / 2 = half := by omega
  have hnl : nxt.length = half := by
    rw [hnxt, fold_core_length]
    omega
  rw [verify_query_folding_consistency_with_transcript]
  simp only [query_at, if_neg hne, hch, hev, hnx, Option.bind_eq_bind,
    Option.some_bind, hhal]
  by_cases hcp : pos < half
  · simp only [if_pos hcp, if_pos (show pos + half < len from by omega),
      if_neg (show ¬ pos ≥ nxt.length from by rw [hnl]; omega)]
    rw [hnxt, fold_core_getD ev c pos (by omega), hhal]
    simp
  · simp only [if_neg hcp, if_pos (show pos - half < len from by omega),
      if_neg (show ¬ pos - half ≥ nxt.length from by rw [hnl]; omega)]
    rw [hnxt, fold_core_getD ev c (pos - half) (by omega), hhal,
      show pos - half + half = pos from by omega]
    simp

theorem queries_loop_cons_ok (hash : List F → F) (fp : FRICommitment)
    (t : ProofTranscript) (q : FRIQuery) (rest : List FRIQuery) (tree : MerkleTree)
    (htree : fp.layer_trees.get? q.layer_index = some tree)
    (hm : verify_merkle_proof hash q.merkle_proof tree.root = true)
    (hfold : q.layer_index < fp.layer_trees.length - 1 →
      verify_query_folding_consistency_with_transcript hash fp q t = some true) :
    verify_fri_queries_loop hash fp t (q :: rest) =
      verify_fri_queries_loop hash fp t rest := by
  rw [verify_fri_queries_loop, htree, Option.bind_eq_bind, Option.some_bind]
  rw [if_neg (by simp [hm])]
  by_cases hlt : q.layer_index < fp.layer_trees.length - 1
  · rw [if_pos hlt, hfold hlt, Option.bind_eq_bind, Option.some_bind, if_pos rfl]
  · rw [if_neg hlt]


set_option maxHeartbeats 1000000 in
/-- All four per-layer queries of one sampled position pass Merkle
authentication and fold consistency. -/
theorem walk4_ok (hash : List F → F) (pub : PublicInput) (t : ProofTranscript)
    (hx0 : extract_fri_challenge_from_transcript hash t 0 = (ch0 hash pub).1)
    (hx1 : extract_fri_challenge_from_transcript hash t 1 = (ch1 hash pub).1)
    (hx2 : extract_fri_challenge_from_transcript hash t 2 = (ch2 hash pub).1)
    (pos : Nat) (hpos : pos < 16) (rest : List FRIQuery) :
    verify_fri_queries_loop hash (FP hash pub) t (walk4 hash pub pos ++ rest) =
      verify_fri_queries_loop hash (FP hash pub) t rest := by
  have h16 := ext16_length pub
  have h8 := e1_length hash pub
  have h4 := e2_length hash pub
  have h2 := e3_length hash pub
  have hm0 : verify_merkle_proof hash (mkProofAt hash (ext16 pub) pos)
      (mkTree hash (ext16 pub)).root = true :=
    verify_mkProofAt hash (ext16 pub) pos (by rw [h16]; decide) (by omega)
  have hm1 : verify_merkle_proof hash (mkProofAt hash (e1 hash pub) (pos / 2))
      (mkTree hash (e1 hash pub)).root = true :=
    verify_mkProofAt hash (e1 hash pub) (pos / 2) (by rw [h8]; decide) (by omega)
  have hm2 : verify_merkle_proof hash (mkProofAt hash (e2 hash pub) (pos / 2 / 2))
      (mkTree hash (e2 hash pub)).root = true :=
    verify_mkProofAt hash (e2 hash pub) (pos / 2 / 2) (by rw [h4]; decide) (by omega)
  have hm3 : verify_merkle_proof hash (mkProofAt hash (e3 hash pub) (pos / 2 / 2 / 2))
      (mkTree hash (e3 hash pub)).root = true :=
    verify_mkProofAt hash (e3 hash pub) (pos / 2 / 2 / 2) (by rw [h2]; decide)
      (by omega)
  rw [show walk4 hash pub pos ++ rest =
    query_at hash (ext16 pub) 0 pos 8 16 ::
    query_at hash (e1 hash pub) 1 (pos / 2) 4 8 ::
    query_at hash (e2 hash pub) 2 (pos / 2 / 2) 2 4 ::
    query_at hash (e3 hash pub) 3 (pos / 2 / 2 / 2) 1 2 :: rest from rfl]
  rw [queries_loop_cons_ok hash (FP hash pub) t
    (query_at hash (ext16 pub) 0 pos 8 16) _ (T0 hash pub) rfl hm0
    (fun _ => query_fold_ok hash (FP hash pub) t (ext16 pub) (e1 hash pub) 0 pos 8 16
      ((ch0 hash pub).1) (by rw [FP_trees_len]; omega) rfl rfl hx0 rfl h16 (by omega)
      hpos)]
  rw [queries_loop_cons_ok hash (FP hash pub) t
    (query_at hash (e1 hash pub) 1 (pos / 2) 4 8) _ (T1 hash pub) rfl hm1
    (fun _ => query_fold_ok hash (FP hash pub) t (e1 hash pub) (e2 hash pub) 1 (pos / 2)
      4 8 ((ch1 hash pub).1) (by rw [FP_trees_len]; omega) rfl rfl hx1 rfl h8 (by omega)
      (by omega))]
  rw [queries_loop_cons_ok hash (FP hash pub) t
    (query_at hash (e2 hash pub) 2 (pos / 2 / 2) 2 4) _ (T2 hash pub) rfl hm2
    (fun _ => query_fold_ok hash (FP hash pub) t (e2 hash pub) (e3 hash pub) 2
      (pos / 2 / 2) 2 4 ((ch2 hash pub).1) (by rw [FP_trees_len]; omega) rfl rfl hx2
      rfl h4 (by omega) (by omega))]
  rw [queries_loop_cons_ok hash (FP hash pub) t
    (query_at hash (e3 hash pub) 3 (pos / 2 / 2 / 2) 1 2) _ (T3 hash pub) rfl hm3
    (fun h => absurd h (by rw [FP_trees_len]; simp [query_at]))]

set_option maxHeartbeats 1000000 in
/-- Every query of the generated query phase passes. -/
theorem cE_queries (hash : List F → F) (pub : PublicInput) (w : List F) :
    verify_fri_queries_with_transcript hash (FP hash pub) (cE hash pub w).2 =
      some true := by
  obtain ⟨hx0, hx1, hx2⟩ := extract_ch_all hash pub w
  obtain ⟨qchs, cchs, hql, hcl, hq1, hc1, hce1, hE, hS⟩ := transcript_shape hash pub w
  have hmem : ∀ p ∈ (qP hash pub).1, felt_to_u32 p < 16 := by
    intro p hp
    rw [hq1] at hp
    exact conv_mem_bound p qchs hp
  have hloop : ∀ ps : List F, (∀ p ∈ ps, felt_to_u32 p < 16) →
      verify_fri_queries_loop hash (FP hash pub) (cE hash pub w).2
        (ps.bind (fun p => walk4 hash pub (felt_to_u32 p))) = some true := by
    intro ps
    induction ps with
    | nil => intro _; rfl
    | cons p ps ih =>
        intro hm
        rw [show (p :: ps).bind (fun p => walk4 hash pub (felt_to_u32 p)) =
          walk4 hash pub (felt_to_u32 p) ++
            ps.bind (fun p => walk4 hash pub (felt_to_u32 p)) from rfl]
        rw [walk4_ok hash pub _ hx0 hx1 hx2 (felt_to_u32 p) (hm p (by simp)) _]
        exact ih (fun q hq => hm q (by simp [hq]))
  have hqq : (FP hash pub).query_phase.queries =
      (qP hash pub).1.bind (fun p => walk4 hash pub (felt_to_u32 p)) := by
    simp only [FP]
    rw [Q32]
  rw [verify_fri_queries_with_transcript, hqq]
  exact hloop (qP hash pub).1 hmem

/-- The complete FRI check of a generated proof succeeds. -/
theorem cE_fri_ok (hash : List F → F) (pub : PublicInput) (w : List F) :
    verify_fri_proof_with_transcript hash (FP hash pub) (cE hash pub w).2 =
      some true := by
  rw [verify_fri_proof_with_transcript]
  rw [if_neg (by simp [FP_trees_len])]
  rw [if_pos (by rw [FP_trees_len]; omega), cE_transitions hash pub w,
    Option.bind_eq_bind, Option.some_bind]
  show (if (true = true) then
      verify_fri_queries_with_transcript hash (FP hash pub) (cE hash pub w).2
    else some false) = some true
  rw [if_pos rfl]
  exact cE_queries hash pub w

theorem getD_map_sq (f : F → F) :
    ∀ (l : List F) (i : Nat), i < l.length → (l.map f).getD i 0 = f (l.getD i 0)
  | a :: l, 0, _ => rfl
  | a :: l, i + 1, h => getD_map_sq f l i (by simpa using h)
  | [], i, h => absurd h (by simp)

/-- The constraint-evaluation check of a generated proof succeeds: every
recorded evaluation is the square of the corresponding re-extracted point. -/
theorem cE_constraints_ok (hash : List F → F) (pub : PublicInput) (w : List F) :
    verify_constraint_evaluations_secure defaultConfig (cE hash pub w).1 pub
      (cE hash pub w).2 = true := by
  obtain ⟨qchs, cchs, hql, hcl, hq1, hc1, hce1, hE, hS⟩ := transcript_shape hash pub w
  have hlen : ((cP hash pub).1).length = 32 := by simp [hc1, hcl]
  rw [verify_constraint_evaluations_secure, hce1]
  rw [if_neg (by simp [hlen])]
  rw [show defaultConfig.num_queries = 32 from rfl, cE_extract_points hash pub w]
  rw [if_neg (by simp)]
  rw [List.all_eq_true]
  intro i hi
  have hilt : i < ((cP hash pub).1).length := by
    simp only [List.mem_range, List.length_map] at hi
    exact hi
  rw [getD_map_sq (fun p => p * p) ((cP hash pub).1) i hilt]
  exact decide_eq_true rfl

theorem calc_max_degree_le :
    ∀ (l : List F) (i : Nat) (acc : F) (K : Nat),
      acc.val ≤ K → i + l.length ≤ K + 1 → K < 65536 →
      (calc_max_degree_loop l i acc).val ≤ K
  | [], _, acc, K, ha, _, _ => ha
  | c :: l, i, acc, K, ha, hi, hK => by
      rw [calc_max_degree_loop]
      simp only [List.length_cons] at hi
      refine calc_max_degree_le l (i + 1) _ K ?_ (by omega) hK
      by_cases hc : c ≠ 0
      · rw [if_pos hc, val_cast_small i (by omega)]
        omega
      · rw [if_neg hc]
        exact ha

/-- The low-degree check of a generated proof succeeds: the maximal index
with a nonzero entry is below the degree bound and the claimed low-degree
proof is the first FRI layer itself. -/
theorem cE_low_degree (hash : List F → F) (pub : PublicInput) :
    verify_low_degree_proof defaultConfig (ext16 pub) (FP hash pub) = some true := by
  have hmd : (calculate_max_degree (ext16 pub)).val ≤ 15 :=
    calc_max_degree_le (ext16 pub) 0 0 15 (by simp)
      (by rw [ext16_length]) (by omega)
  have hgt : felt252_gt (calculate_max_degree (ext16 pub))
      ((defaultConfig.fri_rounds * defaultConfig.blow_up_factor : Nat) : F) = false := by
    rw [felt252_gt,
      show (defaultConfig.fri_rounds * defaultConfig.blow_up_factor : Nat) = 128
        from rfl]
    exact decide_eq_false (by rw [val_cast_small 128 (by omega)]; omega)
  rw [verify_low_degree_proof]
  rw [if_neg (by simp [ext16_length, FP_trees_len])]
  rw [if_neg (by rw [hgt]; simp)]
  rw [show (FP hash pub).layer_evaluations.get? 0 = some (ext16 pub) from rfl]
  rw [Option.bind_eq_bind, Option.some_bind]
  rw [if_neg (fun h => h rfl)]
  simp

/-- A generated transcript starts with the domain separator and the three
public-input scalars, so integrity checking succeeds. -/
theorem cE_integrity (hash : List F → F) (pub : PublicInput) (w : List F) :
    verify_transcript_integrity (cE hash pub w).2 pub = true := by
  obtain ⟨rest, hE, hr⟩ := cE_elements_shape hash pub w
  have hg : ∀ i, i < 17 → (E0 hash pub ++ rest).getD i 0 = (E0 hash pub).getD i 0 :=
    fun i hi => List.getD_append _ _ _ _ (by rw [E0_length]; omega)
  rw [verify_transcript_integrity, hE]
  rw [if_neg (by rw [List.length_append, E0_length, hr]; omega)]
  rw [hg 0 (by omega), hg 1 (by omega), hg 2 (by omega), hg 3 (by omega)]
  rw [show (E0 hash pub).getD 0 0 = FIAT_SHAMIR_DOMAIN_SEPARATOR from rfl,
    show (E0 hash pub).getD 1 0 = pub.message_hash from rfl,
    show (E0 hash pub).getD 2 0 = pub.public_key from rfl,
    show (E0 hash pub).getD 3 0 = pub.signature from rfl]
  simp

theorem verify_stark_eq (hash : List F → F) (cfg : Config) (pub : PublicInput)
    (tc : MerkleTree) (tev : List F) (fp : FRICommitment) (ldp : List F) (seed : F)
    (t : ProofTranscript)
    (hint : verify_transcript_integrity t pub = true)
    (hseed : seed = generate_public_coin_seed hash pub tc)
    (hfri : verify_fri_proof_with_transcript hash fp t = some true)
    (hcon : verify_constraint_evaluations_secure cfg tev pub t = true)
    (hld : verify_low_degree_proof cfg ldp fp = some true) :
    verify_stark_proof hash cfg pub ⟨tc, tev, fp, ldp, seed, t⟩ = some true := by
  rw [verify_stark_proof]
  rw [show (⟨tc, tev, fp, ldp, seed, t⟩ : STARKProof).transcript = t from rfl,
    show (⟨tc, tev, fp, ldp, seed, t⟩ : STARKProof).trace_commitment = tc from rfl,
    show (⟨tc, tev, fp, ldp, seed, t⟩ : STARKProof).public_coin_seed = seed from rfl,
    show (⟨tc, tev, fp, ldp, seed, t⟩ : STARKProof).fri_proof = fp from rfl,
    show (⟨tc, tev, fp, ldp, seed, t⟩ : STARKProof).trace_evaluations = tev from rfl,
    show (⟨tc, tev, fp, ldp, seed, t⟩ : STARKProof).low_degree_proof = ldp from rfl]
  rw [if_neg (by simp [hint]), if_neg (by simp [hseed])]
  rw [hfri, Option.bind_eq_bind, Option.some_bind, hld, Option.some_bind]
  simp [hcon]

/-- C1: completeness of the generate/verify pair: for every hash function,
every public input and every private witness the prover can process (at
least two entries; all such witnesses satisfy the draft's placeholder AIR,
whose compositions do not depend on the witness), proof generation
succeeds and `verify_stark_proof` accepts the generated proof. -/
theorem C1_completeness (hash : List F → F) (pub : PublicInput) (w : List F)
    (hw : 2 ≤ w.length) :
    ∃ p : STARKProof, generate_stark_proof hash defaultConfig pub w = some p ∧
      verify_stark_proof hash defaultConfig pub p = some true := by
  refine ⟨_, gen_eq hash pub w hw, ?_⟩
  exact verify_stark_eq hash defaultConfig pub (T0 hash pub) ((cE hash pub w).1)
    (FP hash pub) (ext16 pub) (generate_public_coin_seed hash pub (T0 hash pub))
    ((cE hash pub w).2) (cE_integrity hash pub w) rfl (cE_fri_ok hash pub w)
    (cE_constraints_ok hash pub w) (cE_low_degree hash pub)

/-- Witness: the completeness theorem applied at the draft's own scenario,
a concrete hash and witness `[10, 20]`. -/
theorem C1_completeness_witness :
    2 ≤ ([(10 : F), 20] : List F).length ∧
      ∃ p : STARKProof,
        generate_stark_proof hashC defaultConfig pub0 [(10 : F), 20] = some p ∧
        verify_stark_proof hashC defaultConfig pub0 p = some true :=
  ⟨by decide, C1_completeness hashC pub0 [(10 : F), 20] (by decide)⟩


end Stark
